import Mathlib

/-!
Verification of the object-tracking and line-crossing counting engine of
`main.py` (class `CentroidTracker`, `run_stream_directional`,
`run_stream_unique`, `launch_analysis_and_flask`) and of the persistence
upsert of `db.py`, as a shallow embedding in Lean.

Modelling conventions, fixed once for the whole file:

* Python `dict`s are embedded as insertion-ordered association lists:
  `Assoc.set` updates an existing key in place and appends a fresh key at
  the end, `Assoc.erase` removes a key.  This is exactly the observable
  behaviour of `dict.__setitem__` / `del` (every real dict has unique
  keys, an invariant our well-formedness predicate carries).
* Pixel coordinates are integers (`Int`), exactly as produced by
  `int((x1+x2)/2)` in `main.py`; relative line positions are rationals
  (`Rat`), and Python `int(..)` on the nonnegative products that occur is
  truncation toward zero, embedded by `truncQ`.
* `scipy.spatial.distance.cdist` produces Euclidean distances that the
  code uses only inside comparisons (`min`, `argsort`, `argmin`); we embed
  the squared integer distance, which induces the same order because
  x ↦ √x is strictly monotone.
* `np.argsort` leaves ties unspecified (unstable quicksort); the embedding
  resolves ties by row index (a stable insertion sort).  `np.argmin`
  returns the first minimising index, embedded faithfully by `argminIdx`.
* The diagonal-line test divides the two cross products by the same
  strictly positive line length before comparing signs; the embedding
  keeps the undivided integer cross products, and the theorem for the
  diagonal claim relates them to the real-valued divided distances.
-/

/-! ## Association lists: the embedding of Python dicts -/

namespace Assoc

variable {κ : Type} [DecidableEq κ] {α : Type}

/-- Lookup of a key, first occurrence (dicts have unique keys). -/
def lookup (k : κ) : List (κ × α) → Option α
  | [] => none
  | e :: rest => if e.1 = k then some e.2 else lookup k rest

/-- Update a present key in place, append an absent key at the end:
`d[k] = v`. -/
def set (k : κ) (v : α) : List (κ × α) → List (κ × α)
  | [] => [(k, v)]
  | e :: rest => if e.1 = k then (k, v) :: rest else e :: set k v rest

/-- Remove a key: `del d[k]`. -/
def erase (k : κ) (l : List (κ × α)) : List (κ × α) :=
  l.filter (fun e => e.1 ≠ k)

/-- Key list in insertion order: `list(d.keys())`. -/
def keys (l : List (κ × α)) : List κ :=
  l.map Prod.fst

theorem lookup_nil (k : κ) : lookup k ([] : List (κ × α)) = none := rfl

theorem lookup_cons (k : κ) (e : κ × α) (rest : List (κ × α)) :
    lookup k (e :: rest) = if e.1 = k then some e.2 else lookup k rest := rfl

theorem set_nil (k : κ) (v : α) : set k v ([] : List (κ × α)) = [(k, v)] := rfl

theorem set_cons (k : κ) (v : α) (e : κ × α) (rest : List (κ × α)) :
    set k v (e :: rest) =
      if e.1 = k then (k, v) :: rest else e :: set k v rest := rfl

theorem lookup_set_self (k : κ) (v : α) (l : List (κ × α)) :
    lookup k (set k v l) = some v := by
  induction l with
  | nil => simp [set_nil, lookup_cons]
  | cons e rest ih =>
    rw [set_cons]
    by_cases h : e.1 = k
    · simp [h, lookup_cons]
    · simp [h, lookup_cons, ih]

theorem lookup_set_ne {k k' : κ} (h : k' ≠ k) (v : α) (l : List (κ × α)) :
    lookup k (set k' v l) = lookup k l := by
  induction l with
  | nil => simp [set_nil, lookup_cons, lookup_nil, h]
  | cons e rest ih =>
    rw [set_cons]
    by_cases he : e.1 = k'
    · rw [if_pos he, lookup_cons, lookup_cons]
      have h1 : ¬ (k' = k) := h
      have h2 : ¬ (e.1 = k) := fun hk => h (he ▸ hk)
      simp [h1, h2]
    · rw [if_neg he, lookup_cons, lookup_cons, ih]

theorem lookup_erase_self (k : κ) (l : List (κ × α)) :
    lookup k (erase k l) = none := by
  induction l with
  | nil => rfl
  | cons e rest ih =>
    by_cases h : e.1 = k
    · simpa [erase, List.filter_cons, h] using ih
    · simp only [erase, List.filter_cons] at ih ⊢
      simp only [h, decide_eq_true_eq]
      rw [if_pos (by simpa using h)]
      simpa [lookup_cons, h] using ih

theorem lookup_erase_ne {k k' : κ} (h : k' ≠ k) (l : List (κ × α)) :
    lookup k (erase k' l) = lookup k l := by
  induction l with
  | nil => rfl
  | cons e rest ih =>
    by_cases he : e.1 = k'
    · have h2 : ¬ (e.1 = k) := fun hk => h (he ▸ hk)
      simp only [erase, List.filter_cons] at ih ⊢
      rw [if_neg (by simpa using he), lookup_cons, if_neg h2]
      exact ih
    · simp only [erase, List.filter_cons] at ih ⊢
      rw [if_pos (by simpa using he), lookup_cons, lookup_cons, ih]

theorem keys_set (k : κ) (v : α) (l : List (κ × α)) :
    keys (set k v l) = if k ∈ keys l then keys l else keys l ++ [k] := by
  induction l with
  | nil => simp [set_nil, keys]
  | cons e rest ih =>
    rw [set_cons]
    by_cases h : e.1 = k
    · simp [h, keys]
    · have h' : ¬ k = e.1 := fun hk => h hk.symm
      simp only [if_neg h, keys, List.map_cons] at ih ⊢
      rw [ih]
      by_cases hm : k ∈ List.map Prod.fst rest
      · simp [hm, List.mem_cons, h']
      · simp [hm, List.mem_cons, h']

theorem keys_erase (k : κ) (l : List (κ × α)) :
    keys (erase k l) = (keys l).filter (fun x => x ≠ k) := by
  induction l with
  | nil => rfl
  | cons e rest ih =>
    by_cases h : e.1 = k
    · simpa [erase, keys, List.filter_cons, h] using ih
    · simpa [erase, keys, List.filter_cons, h] using ih

theorem lookup_isSome_iff_mem_keys (k : κ) (l : List (κ × α)) :
    (lookup k l).isSome ↔ k ∈ keys l := by
  induction l with
  | nil => simp [lookup_nil, keys]
  | cons e rest ih =>
    rw [lookup_cons]
    by_cases h : e.1 = k
    · simp [keys, h]
    · have h' : ¬ k = e.1 := fun hk => h hk.symm
      simp [keys, h, h', ih]

theorem lookup_eq_none_iff_not_mem_keys (k : κ) (l : List (κ × α)) :
    lookup k l = none ↔ k ∉ keys l := by
  rw [← lookup_isSome_iff_mem_keys]
  cases lookup k l <;> simp

theorem nodup_keys_set {k : κ} {v : α} {l : List (κ × α)}
    (h : (keys l).Nodup) : (keys (set k v l)).Nodup := by
  rw [keys_set]
  by_cases hm : k ∈ keys l
  · simpa [hm] using h
  · simp only [hm, if_false]
    refine List.Nodup.append h (List.nodup_singleton k) ?_
    intro a ha hb
    rw [List.mem_singleton] at hb
    subst hb
    exact hm ha

theorem nodup_keys_erase {k : κ} {l : List (κ × α)}
    (h : (keys l).Nodup) : (keys (erase k l)).Nodup := by
  rw [keys_erase]
  exact h.filter _

theorem mem_keys_set_iff (k x : κ) (v : α) (l : List (κ × α)) :
    x ∈ keys (set k v l) ↔ x ∈ keys l ∨ x = k := by
  rw [keys_set]
  by_cases hm : k ∈ keys l
  · simp only [hm, if_true]
    constructor
    · exact fun h => Or.inl h
    · rintro (h | rfl)
      · exact h
      · exact hm
  · simp [hm]

theorem mem_keys_erase_iff (k x : κ) (l : List (κ × α)) :
    x ∈ keys (erase k l) ↔ x ∈ keys l ∧ x ≠ k := by
  rw [keys_erase]
  simp [List.mem_filter]

end Assoc

/-! ## The centroid tracker (`main.py`, lines 77-136) -/

/-- A pixel point, `(x, y)` with integer coordinates. -/
abbrev Point := Int × Int

/-- State of `class CentroidTracker`: the id counter, the four per-identity
dicts, and the disappearance tolerance. -/
structure CentroidTracker where
  nextObjectID : Nat
  objects : List (Nat × Point)
  disappeared : List (Nat × Nat)
  previousCentroids : List (Nat × Point)
  counted : List (Nat × Bool)
  maxDisappeared : Nat
deriving DecidableEq, Repr

namespace CentroidTracker

/-- `CentroidTracker.__init__`: empty dicts, id counter 0. -/
def init (maxDisappeared : Nat) : CentroidTracker :=
  ⟨0, [], [], [], [], maxDisappeared⟩

/-- `register` (lines 86-91): new identity `nextObjectID` with
previous = current = centroid, disappeared 0, counted false; then the
counter is incremented. -/
def register (centroid : Point) (t : CentroidTracker) : CentroidTracker :=
  { t with
    objects := Assoc.set t.nextObjectID centroid t.objects
    disappeared := Assoc.set t.nextObjectID 0 t.disappeared
    previousCentroids := Assoc.set t.nextObjectID centroid t.previousCentroids
    counted := Assoc.set t.nextObjectID false t.counted
    nextObjectID := t.nextObjectID + 1 }

/-- `deregister` (lines 93-98): remove the identity from all four dicts
when present. -/
def deregister (objectID : Nat) (t : CentroidTracker) : CentroidTracker :=
  if objectID ∈ Assoc.keys t.objects then
    { t with
      objects := Assoc.erase objectID t.objects
      disappeared := Assoc.erase objectID t.disappeared
      previousCentroids := Assoc.erase objectID t.previousCentroids
      counted := Assoc.erase objectID t.counted }
  else t

/-- One aging step shared by the empty-input branch (lines 102-105) and the
unmatched-row branch (lines 128-132): increment `disappeared[objectID]`,
deregister when it exceeds the tolerance. -/
def ageOne (t : CentroidTracker) (objectID : Nat) : CentroidTracker :=
  let d := (Assoc.lookup objectID t.disappeared).getD 0 + 1
  let t' := { t with disappeared := Assoc.set objectID d t.disappeared }
  if t'.maxDisappeared < d then deregister objectID t' else t'

/-- Squared Euclidean distance; `cdist` computes the square root of this,
which the code only ever compares, and √ is strictly monotone. -/
def sqDist (p q : Point) : Int :=
  (p.1 - q.1) ^ 2 + (p.2 - q.2) ^ 2

/-- First index in `[0, m)` minimising `f`, as `np.argmin` (first
occurrence wins ties). -/
def argminIdx (f : Nat → Int) (m : Nat) : Nat :=
  (List.range m).foldl (fun best j => if f j < f best then j else best) 0

/-- Value at the argmin; for `m > 0` this is `min_{j<m} f j`, the quantity
`D.min(axis=1)` yields per row. -/
def minVal (f : Nat → Int) (m : Nat) : Int :=
  f (argminIdx f m)

/-- Indices `[0, n)` sorted ascending by `f`, as `rows =
D.min(axis=1).argsort()`; ties resolved by index (a stable sort). -/
def argsortBy (f : Nat → Int) (n : Nat) : List Nat :=
  List.insertionSort (fun a b => f a ≤ f b) (List.range n)

/-- Effect of one accepted greedy match (lines 121-124): previous centroid
becomes the pre-update current one, the current centroid becomes the
matched detection, the disappearance count resets to 0. -/
def matchOne (inputCentroids : List Point) (objectIDs : List Nat)
    (t : CentroidTracker) (rc : Nat × Nat) : CentroidTracker :=
  let objectID := objectIDs.getD rc.1 0
  { t with
    previousCentroids :=
      Assoc.set objectID ((Assoc.lookup objectID t.objects).getD (0, 0))
        t.previousCentroids
    objects := Assoc.set objectID (inputCentroids.getD rc.2 (0, 0)) t.objects
    disappeared := Assoc.set objectID 0 t.disappeared }

/-- The pairwise (squared) distance matrix `D = cdist(objectCentroids,
inputCentroids)` as a function of row and column index. -/
def distMatrix (objectCentroids inputCentroids : List Point)
    (r c : Nat) : Int :=
  sqDist (objectCentroids.getD r (0, 0)) (inputCentroids.getD c (0, 0))

/-- One iteration of the matching loop (lines 118-126): a pair whose row
or column was already consumed is skipped, otherwise the match is applied
and the row and column marked used. -/
def matchStep (inputCentroids : List Point) (objectIDs : List Nat)
    (acc : CentroidTracker × List Nat × List Nat) (rc : Nat × Nat) :
    CentroidTracker × List Nat × List Nat :=
  if rc.1 ∈ acc.2.1 ∨ rc.2 ∈ acc.2.2 then acc
  else (matchOne inputCentroids objectIDs acc.1 rc,
        rc.1 :: acc.2.1, rc.2 :: acc.2.2)

/-- The nonempty-input, live-identities branch of `update` (lines
110-135): greedy matching over rows sorted by min distance, each paired
with its argmin column, pairs with an already used row or column skipped;
then unmatched rows age and unmatched columns are registered (ascending
index order, as CPython iterates sets of small ints). -/
def updateMatched (inputCentroids : List Point) (t : CentroidTracker) :
    CentroidTracker :=
  let objectIDs := Assoc.keys t.objects
  let objectCentroids := t.objects.map Prod.snd
  let n := objectIDs.length
  let m := inputCentroids.length
  let D := distMatrix objectCentroids inputCentroids
  let rows := argsortBy (fun r => minVal (D r) m) n
  let cols := rows.map (fun r => argminIdx (D r) m)
  let folded := (rows.zip cols).foldl
    (matchStep inputCentroids objectIDs) (t, ([], []))
  let t2 := ((List.range n).filter (fun r => r ∉ folded.2.1)).foldl
    (fun s r => ageOne s (objectIDs.getD r 0)) folded.1
  ((List.range m).filter (fun c => c ∉ folded.2.2)).foldl
    (fun s c => register (inputCentroids.getD c (0, 0)) s) t2

/-- `update` (lines 100-136).  Empty input: age every identity.  No live
identities: register every detection.  Otherwise the greedy matching
branch `updateMatched`. -/
def update (inputCentroids : List Point) (t : CentroidTracker) :
    CentroidTracker :=
  if inputCentroids.isEmpty then
    (Assoc.keys t.disappeared).foldl ageOne t
  else if t.objects.isEmpty then
    inputCentroids.foldl (fun s c => register c s) t
  else
    updateMatched inputCentroids t

end CentroidTracker

/-! ## Counting line and per-identity crossing evaluation
(`main.py`, lines 327-443) -/

/-- Orientation of the configured counting line. -/
inductive LineOrientation
  | horizontal
  | vertical
  | diagonal
deriving DecidableEq, Repr

/-- The configured counting algorithm, `"standard"` or `"threshold"`. -/
inductive CountingAlgorithm
  | standard
  | threshold
deriving DecidableEq, Repr

/-- Python `int(..)` on a rational: truncation toward zero. -/
def truncQ (q : ℚ) : ℤ :=
  if q < 0 then -⌊-q⌋ else ⌊q⌋

/-- Line configuration: orientation, relative position in `[0,1]`, and for
diagonal lines whether `direction_mode == "diag1"`. -/
structure LineOptions where
  orientation : LineOrientation
  position : ℚ
  diag1Mode : Bool
deriving DecidableEq, Repr

/-- Line endpoints `pt1, pt2` computed per frame from the frame size
(lines 344-358); `int(H * position)` truncates. -/
def linePoints (H W : ℕ) (opts : LineOptions) : Point × Point :=
  match opts.orientation with
  | .horizontal =>
      let lineCoord := truncQ ((H : ℚ) * opts.position)
      ((0, lineCoord), (W, lineCoord))
  | .vertical =>
      let lineCoord := truncQ ((W : ℚ) * opts.position)
      ((lineCoord, 0), (lineCoord, H))
  | .diagonal =>
      let offset := truncQ (((min W H : ℕ) : ℚ) * opts.position)
      if opts.diag1Mode then ((0, offset), ((W : ℤ), (H : ℤ) - offset))
      else (((W : ℤ), offset), (0, (H : ℤ) - offset))

/-- The two directional buckets: `dir1` is up / left / diagonal-1 and
`dir2` is down / right / diagonal-2. -/
inductive Bucket
  | dir1
  | dir2
deriving DecidableEq, Repr

/-- Integer numerator of the signed distance of `p` to the line
`pt1 → pt2`: the 2D cross product `(p − pt1) × (pt2 − pt1)`.  Lines
401-407 divide this by the strictly positive line length before comparing
signs, which changes no sign. -/
def crossNum (pt1 pt2 p : Point) : Int :=
  (p.1 - pt1.1) * (pt2.2 - pt1.2) - (p.2 - pt1.2) * (pt2.1 - pt1.1)

/-- The crossing test of lines 384-410 for one identity: which bucket, if
any, the move `prev → curr` crosses into. -/
def detectCrossing (orientation : LineOrientation) (pt1 pt2 prev curr : Point) :
    Option Bucket :=
  match orientation with
  | .horizontal =>
      if prev.2 > pt1.2 ∧ curr.2 ≤ pt1.2 then some .dir1
      else if prev.2 < pt1.2 ∧ curr.2 ≥ pt1.2 then some .dir2
      else none
  | .vertical =>
      if prev.1 > pt1.1 ∧ curr.1 ≤ pt1.1 then some .dir1
      else if prev.1 < pt1.1 ∧ curr.1 ≥ pt1.1 then some .dir2
      else none
  | .diagonal =>
      if crossNum pt1 pt2 prev * crossNum pt1 pt2 curr < 0 then
        some (if crossNum pt1 pt2 prev > 0 then .dir1 else .dir2)
      else none

/-- Displacement of a crossing (lines 412-418): absolute change along the
relevant axis, or in `x + y` for diagonal lines. -/
def displacement (orientation : LineOrientation) (prev curr : Point) : Int :=
  match orientation with
  | .horizontal => |curr.2 - prev.2|
  | .vertical => |curr.1 - prev.1|
  | .diagonal => |curr.1 + curr.2 - (prev.1 + prev.2)|

/-- Full per-identity evaluation of lines 381-443: nothing happens for an
already counted identity; a detected crossing is dropped when the
threshold algorithm is active and the displacement is strictly below the
minimum (and the flag stays false); otherwise the bucket is recorded and
the flag becomes true. -/
def evalIdentity (orientation : LineOrientation) (algorithm : CountingAlgorithm)
    (minDisp : Int) (pt1 pt2 prev curr : Point) (counted : Bool) :
    Option Bucket × Bool :=
  if counted then (none, true)
  else
    match detectCrossing orientation pt1 pt2 prev curr with
    | none => (none, false)
    | some b =>
        if algorithm = .threshold ∧ displacement orientation prev curr < minDisp
        then (none, false)
        else (some b, true)

/-! ## Per-frame session steps (directional loop lines 339-443, unique
loop lines 523-551) -/

/-- Mutable state of the directional loop body: the tracker and the two
bucket counters (`up/down`, `left/right` or `diag1/diag2`). -/
structure DirectionalState where
  tracker : CentroidTracker
  dir1Count : Nat
  dir2Count : Nat
deriving Repr

/-- The per-identity body of the directional counting loop (lines
376-443) given the resolved line endpoints: a recorded crossing bumps the
bucket counter and sets `counted[id] = True`, everything else leaves the
state alone. -/
def dirCountStep (orientation : LineOrientation)
    (algorithm : CountingAlgorithm) (minDisp : Int) (pt1 pt2 : Point)
    (acc : DirectionalState) (entry : Nat × Point) : DirectionalState :=
  let prev := (Assoc.lookup entry.1 acc.tracker.previousCentroids).getD entry.2
  let fl := (Assoc.lookup entry.1 acc.tracker.counted).getD false
  match evalIdentity orientation algorithm minDisp pt1 pt2
      prev entry.2 fl with
  | (some b, _) =>
      { tracker := { acc.tracker with
          counted := Assoc.set entry.1 true acc.tracker.counted }
        dir1Count := if b = .dir1 then acc.dir1Count + 1 else acc.dir1Count
        dir2Count := if b = .dir2 then acc.dir2Count + 1 else acc.dir2Count }
  | (none, _) => acc

/-- One frame of `run_stream_directional`: update the tracker with the
frame's class-filtered centroids, then walk the returned identities in
order; every not-yet-counted one is evaluated against the line. -/
def directionalFrameStep (opts : LineOptions)
    (algorithm : CountingAlgorithm) (minDisp : Int) (H W : ℕ)
    (inputCentroids : List Point) (s : DirectionalState) : DirectionalState :=
  let pts := linePoints H W opts
  let tr := CentroidTracker.update inputCentroids s.tracker
  tr.objects.foldl
    (dirCountStep opts.orientation algorithm minDisp pts.1 pts.2)
    { s with tracker := tr }

/-- Mutable state of the unique loop body: the tracker and the single
total. -/
structure UniqueState where
  tracker : CentroidTracker
  totalCount : Nat
deriving Repr

/-- The per-identity body of the unique counting loop (lines 545-548):
an identity whose `counted` flag is false bumps the total once and is
marked counted. -/
def uniqueCountStep (acc : UniqueState) (entry : Nat × Point) :
    UniqueState :=
  if (Assoc.lookup entry.1 acc.tracker.counted).getD false then acc
  else
    { tracker := { acc.tracker with
        counted := Assoc.set entry.1 true acc.tracker.counted }
      totalCount := acc.totalCount + 1 }

/-- One frame of `run_stream_unique` (lines 544-551). -/
def uniqueFrameStep (inputCentroids : List Point) (s : UniqueState) :
    UniqueState :=
  let tr := CentroidTracker.update inputCentroids s.tracker
  tr.objects.foldl uniqueCountStep { s with tracker := tr }

/-- A whole directional session segment: one frame step per element of
`frames`. -/
def runDirectionalFrames (opts : LineOptions)
    (algorithm : CountingAlgorithm) (minDisp : Int) (H W : ℕ)
    (frames : List (List Point)) (s : DirectionalState) : DirectionalState :=
  frames.foldl
    (fun st dets => directionalFrameStep opts algorithm minDisp H W dets st) s

/-- A whole unique session segment: one frame step per element of
`frames`. -/
def runUniqueFrames (frames : List (List Point)) (s : UniqueState) :
    UniqueState :=
  frames.foldl (fun st dets => uniqueFrameStep dets st) s

/-! ## Session termination and flush-key protocol
(`main.py` lines 464-507, 558-582, 602-645; `db.py`) -/

/-- Why the per-frame loop ended: the quit key (checked once per frame,
lines 489 / 571) or a mid-stream decode error caught by the `except`
around the frame loop (lines 501-504 / 576-579). -/
inductive ExitReason
  | quitKey
  | decodeFailure
deriving DecidableEq, Repr

/-- Value returned by `run_stream_directional` given the accumulated
bucket counters: the quit path (lines 493-500) returns them, while the
decode-failure path breaks out and executes `return (0,0), 0`
(line 507). -/
def directionalSessionResult (dir1Count dir2Count : Nat) :
    ExitReason → (Nat × Nat) × Nat
  | .quitKey => ((dir1Count, dir2Count), dir1Count + dir2Count)
  | .decodeFailure => ((0, 0), 0)

/-- Value returned by `run_stream_unique` given the accumulated total:
both exits return `total_count` (lines 575 and 582). -/
def uniqueSessionResult (totalCount : Nat) : ExitReason → Nat
  | _ => totalCount

/-- Session-start keys handed to `upsert_session` by the successive
periodic flushes of `run_stream_directional` (line 482): always the
`session_start` fixed at line 337.  Times are abstract clock values. -/
def directionalPeriodicFlushKeys (sessionStart : ℕ) (flushTimes : List ℕ) :
    List ℕ :=
  flushTimes.map (fun _ => sessionStart)

/-- Session-start keys handed to `upsert_session` by the successive
periodic flushes of `run_stream_unique` (lines 560-565): each flush passes
`record_start = fromtimestamp(last_record_time)` and afterwards advances
`last_record_time` to the flush time (line 570).  The first argument is
the initial `last_record_time`, set at session creation (line 520). -/
def uniquePeriodicFlushKeys : ℕ → List ℕ → List ℕ
  | _, [] => []
  | lastRecordTime, t :: ts => lastRecordTime :: uniquePeriodicFlushKeys t ts

/-- Session-start key of the one final flush (lines 633-638): the
`session_start` captured by `launch_analysis_and_flask` itself at line
602, a clock reading distinct from the one the stream function takes. -/
def finalFlushKey (launcherSessionStart : ℕ) : ℕ :=
  launcherSessionStart

/-- One stored row of the `analytics` table of `db.py`, minus its key
columns; URLs, object types and timestamps are abstract identifiers. -/
structure SessionRow where
  objectType : ℕ
  direction1 : ℕ
  direction2 : ℕ
  total : ℕ
  sessionEnd : ℕ
deriving DecidableEq, Repr

/-- `upsert_session` of `db.py`: `INSERT .. ON CONFLICT(stream_url,
session_start) DO UPDATE`, an insert-or-overwrite on the composite key
`(stream_url, session_start)`. -/
def upsert_session (db : List ((ℕ × ℕ) × SessionRow))
    (streamUrl sessionStart : ℕ) (row : SessionRow) :
    List ((ℕ × ℕ) × SessionRow) :=
  Assoc.set (streamUrl, sessionStart) row db

/-! ## Tracker invariants -/

namespace CentroidTracker

/-- Invariant every tracker reachable from `__init__` satisfies: the four
dicts share one key list, keys are unique, and every key is below the id
counter. -/
structure WF (t : CentroidTracker) : Prop where
  keysDis : Assoc.keys t.disappeared = Assoc.keys t.objects
  keysPrev : Assoc.keys t.previousCentroids = Assoc.keys t.objects
  keysCnt : Assoc.keys t.counted = Assoc.keys t.objects
  nodup : (Assoc.keys t.objects).Nodup
  bounded : ∀ k ∈ Assoc.keys t.objects, k < t.nextObjectID

theorem wf_init (m : Nat) : (init m).WF := by
  refine ⟨rfl, rfl, rfl, List.nodup_nil, ?_⟩
  intro k hk
  simp [init, Assoc.keys] at hk

theorem register_nextObjectID (c : Point) (t : CentroidTracker) :
    (register c t).nextObjectID = t.nextObjectID + 1 := rfl

theorem register_maxDisappeared (c : Point) (t : CentroidTracker) :
    (register c t).maxDisappeared = t.maxDisappeared := rfl

theorem keys_register_objects (c : Point) (t : CentroidTracker)
    (h : t.nextObjectID ∉ Assoc.keys t.objects) :
    Assoc.keys (register c t).objects =
      Assoc.keys t.objects ++ [t.nextObjectID] := by
  simp [register, Assoc.keys_set, h]

theorem wf_register (c : Point) {t : CentroidTracker} (wf : t.WF) :
    (register c t).WF := by
  have hfresh : t.nextObjectID ∉ Assoc.keys t.objects := fun hmem =>
    lt_irrefl _ (wf.bounded _ hmem)
  have hko := keys_register_objects c t hfresh
  refine ⟨?_, ?_, ?_, ?_, ?_⟩
  · simp [register, Assoc.keys_set, wf.keysDis, hfresh, hko]
  · simp [register, Assoc.keys_set, wf.keysPrev, hfresh, hko]
  · simp [register, Assoc.keys_set, wf.keysCnt, hfresh, hko]
  · rw [hko]
    refine List.Nodup.append wf.nodup (List.nodup_singleton _) ?_
    intro a ha hb
    rw [List.mem_singleton] at hb
    subst hb
    exact hfresh ha
  · intro k hk
    rw [hko, List.mem_append, List.mem_singleton] at hk
    rw [register_nextObjectID]
    rcases hk with hk | rfl
    · exact lt_trans (wf.bounded _ hk) (Nat.lt_succ_self _)
    · exact Nat.lt_succ_self _

theorem lookup_register_objects_ne {id : Nat} {t : CentroidTracker}
    (h : t.nextObjectID ≠ id) (c : Point) :
    Assoc.lookup id (register c t).objects = Assoc.lookup id t.objects :=
  Assoc.lookup_set_ne h c t.objects

theorem lookup_register_counted_ne {id : Nat} {t : CentroidTracker}
    (h : t.nextObjectID ≠ id) (c : Point) :
    Assoc.lookup id (register c t).counted = Assoc.lookup id t.counted :=
  Assoc.lookup_set_ne h false t.counted

theorem lookup_register_disappeared_ne {id : Nat} {t : CentroidTracker}
    (h : t.nextObjectID ≠ id) (c : Point) :
    Assoc.lookup id (register c t).disappeared =
      Assoc.lookup id t.disappeared :=
  Assoc.lookup_set_ne h 0 t.disappeared

theorem lookup_register_previous_ne {id : Nat} {t : CentroidTracker}
    (h : t.nextObjectID ≠ id) (c : Point) :
    Assoc.lookup id (register c t).previousCentroids =
      Assoc.lookup id t.previousCentroids :=
  Assoc.lookup_set_ne h c t.previousCentroids

theorem deregister_nextObjectID (id : Nat) (t : CentroidTracker) :
    (deregister id t).nextObjectID = t.nextObjectID := by
  unfold deregister
  split <;> rfl

theorem deregister_maxDisappeared (id : Nat) (t : CentroidTracker) :
    (deregister id t).maxDisappeared = t.maxDisappeared := by
  unfold deregister
  split <;> rfl

theorem wf_deregister (id : Nat) {t : CentroidTracker} (wf : t.WF) :
    (deregister id t).WF := by
  unfold deregister
  split
  · refine ⟨?_, ?_, ?_, ?_, ?_⟩
    · simp [Assoc.keys_erase, wf.keysDis]
    · simp [Assoc.keys_erase, wf.keysPrev]
    · simp [Assoc.keys_erase, wf.keysCnt]
    · simpa [Assoc.keys_erase] using wf.nodup.filter _
    · intro k hk
      rw [Assoc.keys_erase, List.mem_filter] at hk
      exact wf.bounded _ hk.1
  · exact wf

theorem lookup_deregister_objects_ne {id j : Nat} {t : CentroidTracker}
    (h : j ≠ id) :
    Assoc.lookup id (deregister j t).objects = Assoc.lookup id t.objects := by
  unfold deregister
  split
  · exact Assoc.lookup_erase_ne h t.objects
  · rfl

theorem lookup_deregister_counted_ne {id j : Nat} {t : CentroidTracker}
    (h : j ≠ id) :
    Assoc.lookup id (deregister j t).counted = Assoc.lookup id t.counted := by
  unfold deregister
  split
  · exact Assoc.lookup_erase_ne h t.counted
  · rfl

theorem lookup_deregister_disappeared_ne {id j : Nat} {t : CentroidTracker}
    (h : j ≠ id) :
    Assoc.lookup id (deregister j t).disappeared =
      Assoc.lookup id t.disappeared := by
  unfold deregister
  split
  · exact Assoc.lookup_erase_ne h t.disappeared
  · rfl

theorem lookup_deregister_previous_ne {id j : Nat} {t : CentroidTracker}
    (h : j ≠ id) :
    Assoc.lookup id (deregister j t).previousCentroids =
      Assoc.lookup id t.previousCentroids := by
  unfold deregister
  split
  · exact Assoc.lookup_erase_ne h t.previousCentroids
  · rfl

theorem ageOne_nextObjectID (t : CentroidTracker) (j : Nat) :
    (ageOne t j).nextObjectID = t.nextObjectID := by
  unfold ageOne
  dsimp only
  split
  · rw [deregister_nextObjectID]
  · rfl

theorem ageOne_maxDisappeared (t : CentroidTracker) (j : Nat) :
    (ageOne t j).maxDisappeared = t.maxDisappeared := by
  unfold ageOne
  dsimp only
  split
  · rw [deregister_maxDisappeared]
  · rfl

theorem lookup_ageOne_objects_ne {id : Nat} (t : CentroidTracker) {j : Nat}
    (h : j ≠ id) :
    Assoc.lookup id (ageOne t j).objects = Assoc.lookup id t.objects := by
  unfold ageOne
  dsimp only
  split
  · rw [lookup_deregister_objects_ne h]
  · rfl

theorem lookup_ageOne_counted_ne {id : Nat} (t : CentroidTracker) {j : Nat}
    (h : j ≠ id) :
    Assoc.lookup id (ageOne t j).counted = Assoc.lookup id t.counted := by
  unfold ageOne
  dsimp only
  split
  · rw [lookup_deregister_counted_ne h]
  · rfl

theorem lookup_ageOne_disappeared_ne {id : Nat} (t : CentroidTracker)
    {j : Nat} (h : j ≠ id) :
    Assoc.lookup id (ageOne t j).disappeared =
      Assoc.lookup id t.disappeared := by
  unfold ageOne
  dsimp only
  split
  · rw [lookup_deregister_disappeared_ne h]
    exact Assoc.lookup_set_ne h _ _
  · exact Assoc.lookup_set_ne h _ _

theorem lookup_ageOne_previous_ne {id : Nat} (t : CentroidTracker) {j : Nat}
    (h : j ≠ id) :
    Assoc.lookup id (ageOne t j).previousCentroids =
      Assoc.lookup id t.previousCentroids := by
  unfold ageOne
  dsimp only
  split
  · rw [lookup_deregister_previous_ne h]
  · rfl

end CentroidTracker

namespace CentroidTracker

theorem mem_keys_ageOne_objects_of_ne {x j : Nat} (t : CentroidTracker)
    (hx : x ∈ Assoc.keys t.objects) (hne : x ≠ j) :
    x ∈ Assoc.keys (ageOne t j).objects := by
  unfold ageOne
  dsimp only
  split
  · unfold deregister
    split
    · exact (Assoc.mem_keys_erase_iff _ _ _).mpr ⟨hx, hne⟩
    · exact hx
  · exact hx

theorem not_mem_keys_ageOne_objects {x j : Nat} (t : CentroidTracker)
    (hx : x ∉ Assoc.keys t.objects) :
    x ∉ Assoc.keys (ageOne t j).objects := by
  unfold ageOne
  dsimp only
  split
  · unfold deregister
    split
    · intro hmem
      exact hx ((Assoc.mem_keys_erase_iff _ _ _).mp hmem).1
    · exact hx
  · exact hx

theorem wf_ageOne {t : CentroidTracker} {j : Nat} (wf : t.WF)
    (hj : j ∈ Assoc.keys t.objects) : (ageOne t j).WF := by
  unfold ageOne
  dsimp only
  have hjd : j ∈ Assoc.keys t.disappeared := wf.keysDis ▸ hj
  have hset : Assoc.keys (Assoc.set j ((Assoc.lookup j t.disappeared).getD 0 + 1)
      t.disappeared) = Assoc.keys t.disappeared := by
    rw [Assoc.keys_set, if_pos hjd]
  have wf' : WF { t with disappeared := Assoc.set j ((Assoc.lookup j t.disappeared).getD 0 + 1) t.disappeared } :=
    ⟨hset.trans wf.keysDis, wf.keysPrev, wf.keysCnt, wf.nodup, wf.bounded⟩
  split
  · exact wf_deregister j wf'
  · exact wf'

/-- Aging the identity `j` itself: its disappearance count becomes `d+1`;
it is removed from the tracker exactly when that exceeds the tolerance. -/
theorem ageOne_self {t : CentroidTracker} {j : Nat} {d : Nat} (wf : t.WF)
    (hd : Assoc.lookup j t.disappeared = some d) :
    (t.maxDisappeared < d + 1 → j ∉ Assoc.keys (ageOne t j).objects) ∧
    (¬ t.maxDisappeared < d + 1 →
      Assoc.lookup j (ageOne t j).disappeared = some (d + 1) ∧
      Assoc.lookup j (ageOne t j).objects = Assoc.lookup j t.objects ∧
      j ∈ Assoc.keys (ageOne t j).objects) := by
  have hjd : j ∈ Assoc.keys t.disappeared := by
    rw [← Assoc.lookup_isSome_iff_mem_keys, hd]
    rfl
  have hjo : j ∈ Assoc.keys t.objects := wf.keysDis ▸ hjd
  unfold ageOne
  rw [hd]
  dsimp only [Option.getD_some]
  constructor
  · intro hlt
    rw [if_pos hlt]
    unfold deregister
    dsimp only
    rw [if_pos hjo]
    intro hmem
    exact ((Assoc.mem_keys_erase_iff _ _ _).mp hmem).2 rfl
  · intro hlt
    rw [if_neg hlt]
    refine ⟨Assoc.lookup_set_self _ _ _, rfl, hjo⟩

/-- A fold of aging steps over keys other than `id` leaves all per-`id`
state untouched. -/
theorem foldl_ageOne_lookup_of_not_mem {id : Nat} :
    ∀ (L : List Nat) (t : CentroidTracker), id ∉ L →
      Assoc.lookup id (L.foldl ageOne t).objects = Assoc.lookup id t.objects ∧
      Assoc.lookup id (L.foldl ageOne t).disappeared =
        Assoc.lookup id t.disappeared ∧
      Assoc.lookup id (L.foldl ageOne t).counted = Assoc.lookup id t.counted ∧
      Assoc.lookup id (L.foldl ageOne t).previousCentroids =
        Assoc.lookup id t.previousCentroids
  | [], t, _ => ⟨rfl, rfl, rfl, rfl⟩
  | j :: L, t, h => by
    have hne : j ≠ id := fun hj => h (hj ▸ List.mem_cons_self j L)
    have ih := foldl_ageOne_lookup_of_not_mem L (ageOne t j)
      (fun hmem => h (List.mem_cons_of_mem j hmem))
    rw [List.foldl_cons]
    exact ⟨ih.1.trans (lookup_ageOne_objects_ne t hne),
      ih.2.1.trans (lookup_ageOne_disappeared_ne t hne),
      ih.2.2.1.trans (lookup_ageOne_counted_ne t hne),
      ih.2.2.2.trans (lookup_ageOne_previous_ne t hne)⟩

theorem not_mem_keys_foldl_ageOne {x : Nat} :
    ∀ (L : List Nat) (t : CentroidTracker), x ∉ Assoc.keys t.objects →
      x ∉ Assoc.keys (L.foldl ageOne t).objects
  | [], _, h => h
  | j :: L, t, h => by
    rw [List.foldl_cons]
    exact not_mem_keys_foldl_ageOne L _ (not_mem_keys_ageOne_objects t h)

theorem wf_foldl_ageOne :
    ∀ (L : List Nat), L.Nodup → ∀ (t : CentroidTracker), t.WF →
      (∀ x ∈ L, x ∈ Assoc.keys t.objects) →
      (L.foldl ageOne t).WF ∧
      (L.foldl ageOne t).nextObjectID = t.nextObjectID ∧
      (L.foldl ageOne t).maxDisappeared = t.maxDisappeared
  | [], _, t, wf, _ => ⟨wf, rfl, rfl⟩
  | j :: L, hnd, t, wf, hmem => by
    rw [List.foldl_cons]
    have hj : j ∈ Assoc.keys t.objects := hmem j (List.mem_cons_self j L)
    have hnd' := (List.nodup_cons.mp hnd)
    have ih := wf_foldl_ageOne L hnd'.2 (ageOne t j) (wf_ageOne wf hj)
      (fun x hx => mem_keys_ageOne_objects_of_ne t (hmem x (List.mem_cons_of_mem j hx))
        (fun hxj => hnd'.1 (hxj ▸ hx)))
    exact ⟨ih.1, ih.2.1.trans (ageOne_nextObjectID t j),
      ih.2.2.trans (ageOne_maxDisappeared t j)⟩

/-- Per-identity effect of a fold of aging steps over a duplicate-free key
list containing `id`: the count ticks up once, and removal happens exactly
past the tolerance. -/
theorem foldl_ageOne_self {id : Nat} {d : Nat} :
    ∀ (L : List Nat), L.Nodup → ∀ (t : CentroidTracker), t.WF →
      (∀ x ∈ L, x ∈ Assoc.keys t.objects) → id ∈ L →
      Assoc.lookup id t.disappeared = some d →
      (t.maxDisappeared < d + 1 →
        id ∉ Assoc.keys (L.foldl ageOne t).objects) ∧
      (¬ t.maxDisappeared < d + 1 →
        Assoc.lookup id (L.foldl ageOne t).disappeared = some (d + 1) ∧
        id ∈ Assoc.keys (L.foldl ageOne t).objects)
  | [], _, t, _, _, hid, _ => absurd hid (List.not_mem_nil id)
  | j :: L, hnd, t, wf, hmem, hid, hd => by
    rw [List.foldl_cons]
    have hnd' := List.nodup_cons.mp hnd
    by_cases hji : j = id
    · rw [← hji] at hd ⊢
      have hself := ageOne_self wf hd
      have hnotL : j ∉ L := hnd'.1
      constructor
      · intro hlt
        exact not_mem_keys_foldl_ageOne L _ (hself.1 hlt)
      · intro hlt
        obtain ⟨hd', _, hmem'⟩ := hself.2 hlt
        have hstable := foldl_ageOne_lookup_of_not_mem L (ageOne t j) hnotL
        constructor
        · exact hstable.2.1.trans hd'
        · have hwff := wf_foldl_ageOne L hnd'.2 (ageOne t j) (wf_ageOne wf
            (hmem j (List.mem_cons_self j L)))
            (fun x hx => mem_keys_ageOne_objects_of_ne t
              (hmem x (List.mem_cons_of_mem j hx))
              (fun hxj => hnd'.1 (hxj ▸ hx)))
          have hsome :
              (Assoc.lookup j (L.foldl ageOne (ageOne t j)).disappeared).isSome := by
            rw [hstable.2.1.trans hd']
            rfl
          exact hwff.1.keysDis ▸ (Assoc.lookup_isSome_iff_mem_keys _ _).mp hsome
    · have hidL : id ∈ L := by
        rcases List.mem_cons.mp hid with h | h
        · exact absurd h.symm hji
        · exact h
      have hji' : j ≠ id := hji
      have hd2 : Assoc.lookup id (ageOne t j).disappeared = some d :=
        (lookup_ageOne_disappeared_ne t hji').trans hd
      have hwfa := wf_ageOne wf (hmem j (List.mem_cons_self j L))
      have hmax := ageOne_maxDisappeared t j
      have ih := foldl_ageOne_self L hnd'.2 (ageOne t j) hwfa
        (fun x hx => mem_keys_ageOne_objects_of_ne t
          (hmem x (List.mem_cons_of_mem j hx))
          (fun hxj => hnd'.1 (hxj ▸ hx)))
        hidL hd2
      rw [hmax] at ih
      exact ih

end CentroidTracker

namespace CentroidTracker

theorem update_nil (t : CentroidTracker) :
    update [] t = (Assoc.keys t.disappeared).foldl ageOne t := rfl

theorem wf_update_nil {t : CentroidTracker} (wf : t.WF) :
    (update [] t).WF ∧ (update [] t).nextObjectID = t.nextObjectID ∧
    (update [] t).maxDisappeared = t.maxDisappeared := by
  rw [update_nil]
  exact wf_foldl_ageOne _ (wf.keysDis ▸ wf.nodup) t wf
    (fun x hx => wf.keysDis ▸ hx)

theorem update_nil_self {t : CentroidTracker} {id d : Nat} (wf : t.WF)
    (hd : Assoc.lookup id t.disappeared = some d) :
    (t.maxDisappeared < d + 1 → id ∉ Assoc.keys (update [] t).objects) ∧
    (¬ t.maxDisappeared < d + 1 →
      Assoc.lookup id (update [] t).disappeared = some (d + 1) ∧
      id ∈ Assoc.keys (update [] t).objects) := by
  rw [update_nil]
  refine foldl_ageOne_self _ (wf.keysDis ▸ wf.nodup) t wf
    (fun x hx => wf.keysDis ▸ hx) ?_ hd
  exact (Assoc.lookup_isSome_iff_mem_keys _ _).mp (by rw [hd]; rfl)

/-- Iterating `update([])`: after `n` empty frames within the tolerance the
disappearance count of `id` is exactly `d + n`. -/
theorem iterate_update_nil {id : Nat} :
    ∀ (n : Nat) (t : CentroidTracker) (d : Nat), t.WF →
      Assoc.lookup id t.disappeared = some d →
      d + n ≤ t.maxDisappeared →
      Assoc.lookup id ((update [])^[n] t).disappeared = some (d + n) ∧
      ((update [])^[n] t).WF ∧
      ((update [])^[n] t).maxDisappeared = t.maxDisappeared
  | 0, t, d, wf, hd, _ => ⟨by simpa using hd, wf, rfl⟩
  | n + 1, t, d, wf, hd, hle => by
    rw [Function.iterate_succ_apply]
    have hstep := update_nil_self wf hd
    have hnot : ¬ t.maxDisappeared < d + 1 := by omega
    obtain ⟨hd', _⟩ := hstep.2 hnot
    have hwf := wf_update_nil wf
    have ih := iterate_update_nil n (update [] t) (d + 1) hwf.1 hd'
      (by rw [hwf.2.2]; omega)
    have harith : d + 1 + n = d + (n + 1) := by omega
    rw [harith] at ih
    exact ⟨ih.1, ih.2.1, ih.2.2.trans hwf.2.2⟩

end CentroidTracker

/-- Two live identities, at `(0,0)` and `(100,100)`, while every frame
presents the single detection `(0,0)`: the greedy matcher pairs identity 0
(strictly closer) with the only column every frame, so identity 1 stays
unmatched and ages through the unmatched-row branch of `update`. -/
def unmatchedRowScenario (n : Nat) : CentroidTracker :=
  (CentroidTracker.update [(0, 0)])^[n]
    (((CentroidTracker.init 40).register (0, 0)).register (100, 100))

namespace Assoc

variable {κ : Type} [DecidableEq κ] {α : Type}

/-- Number of stored rows under key `k` (the `analytics` table never holds
two rows for one primary key). -/
def countKey (k : κ) (l : List (κ × α)) : Nat :=
  (l.filter (fun e => e.1 = k)).length

theorem countKey_nil (k : κ) : countKey k ([] : List (κ × α)) = 0 := rfl

theorem countKey_eq_zero_of_not_mem {k : κ} {l : List (κ × α)}
    (h : k ∉ keys l) : countKey k l = 0 := by
  induction l with
  | nil => rfl
  | cons e rest ih =>
    have h1 : ¬ e.1 = k := fun he => h (he ▸ List.mem_cons_self e.1 _)
    have h2 : k ∉ keys rest := fun hm => h (List.mem_cons_of_mem _ hm)
    simpa [countKey, List.filter_cons, h1] using ih h2

theorem countKey_set_mem {k : κ} {l : List (κ × α)} (h : k ∈ keys l) (v : α) :
    countKey k (set k v l) = countKey k l := by
  induction l with
  | nil => cases h
  | cons e rest ih =>
    rw [set_cons]
    by_cases he : e.1 = k
    · simp [countKey, List.filter_cons, he]
    · have h2 : k ∈ keys rest := by
        rcases List.mem_cons.mp h with h' | h'
        · exact absurd h'.symm he
        · exact h'
      simpa [countKey, List.filter_cons, he] using ih h2

theorem countKey_set_not_mem {k : κ} {l : List (κ × α)} (h : k ∉ keys l)
    (v : α) : countKey k (set k v l) = countKey k l + 1 := by
  induction l with
  | nil => simp [set_nil, countKey, List.filter_cons]
  | cons e rest ih =>
    rw [set_cons]
    have h1 : ¬ e.1 = k := fun he => h (he ▸ List.mem_cons_self e.1 _)
    have h2 : k ∉ keys rest := fun hm => h (List.mem_cons_of_mem _ hm)
    simpa [countKey, List.filter_cons, h1] using ih h2

theorem lookup_foldl_set (k : κ) :
    ∀ (vs : List α) (v0 : α) (l : List (κ × α)),
      lookup k (vs.foldl (fun d v => set k v d) (set k v0 l)) =
        some (vs.getLastD v0)
  | [], v0, l => lookup_set_self k v0 l
  | v :: vs, v0, l => by
    rw [List.foldl_cons, List.getLastD_cons]
    exact lookup_foldl_set k vs v (set k v0 l)

theorem countKey_foldl_set (k : κ) :
    ∀ (vs : List α) (l : List (κ × α)), k ∈ keys l →
      countKey k (vs.foldl (fun d v => set k v d) l) = countKey k l
  | [], _, _ => rfl
  | v :: vs, l, h => by
    rw [List.foldl_cons]
    rw [countKey_foldl_set k vs (set k v l) ((mem_keys_set_iff k k v l).mpr (Or.inr rfl))]
    exact countKey_set_mem h v

end Assoc

/-- C1 counterexample: unique mode, session created at clock 0 (both the
`session_start` of line 521 and the initial `last_record_time` of line
520), periodic flushes firing at clocks 60 and 120.  The two flushes pass
session-start keys `[0, 60]`: the second flush does not carry the
session's fixed start 0, so the periodic flushes do not share one
`(streamId, sessionStart)` upsert key, contradicting the claim. -/
theorem C1_counterexample_unique_flush_keys :
    uniquePeriodicFlushKeys 0 [60, 120] = [0, 60] ∧
    ¬ (∀ k ∈ uniquePeriodicFlushKeys 0 [60, 120], k = 0) := by
  constructor
  · rfl
  · intro h
    have h60 : (60 : ℕ) ∈ uniquePeriodicFlushKeys 0 [60, 120] := by
      rw [show uniquePeriodicFlushKeys 0 [60, 120] = [0, 60] from rfl]
      exact List.mem_cons_of_mem 0 (List.mem_singleton.mpr rfl)
    exact absurd (h 60 h60) (by decide)

/-- C1 amended: in directional mode every periodic flush carries the fixed
`session_start` key, but in unique mode the n-th periodic flush carries the
previous flush time (the key list is the flush-time list shifted right by
the initial last-record time), so successive unique flushes carry distinct
keys; the one final flush carries the launcher's own separately captured
session start; and repeated upserts under one fixed fresh key keep exactly
one stored row, holding the latest snapshot. -/
theorem C1_flush_key_protocol_amended (sessionStart t0 : ℕ) (ts : List ℕ)
    (db : List ((ℕ × ℕ) × SessionRow)) (u s : ℕ) (r0 : SessionRow)
    (rs : List SessionRow) (hfresh : (u, s) ∉ Assoc.keys db) :
    (∀ k ∈ directionalPeriodicFlushKeys sessionStart ts, k = sessionStart) ∧
    uniquePeriodicFlushKeys t0 ts = (t0 :: ts).dropLast ∧
    finalFlushKey sessionStart = sessionStart ∧
    Assoc.lookup (u, s)
      (rs.foldl (fun d r => upsert_session d u s r) (upsert_session db u s r0)) =
      some (rs.getLastD r0) ∧
    Assoc.countKey (u, s)
      (rs.foldl (fun d r => upsert_session d u s r) (upsert_session db u s r0)) = 1 := by
  refine ⟨?_, ?_, rfl, ?_, ?_⟩
  · intro k hk
    rcases List.mem_map.mp hk with ⟨_, _, rfl⟩
    rfl
  · induction ts generalizing t0 with
    | nil => rfl
    | cons t ts ih =>
      show t0 :: uniquePeriodicFlushKeys t ts = (t0 :: t :: ts).dropLast
      rw [ih t]
      rfl
  · exact Assoc.lookup_foldl_set (u, s) rs r0 db
  · have hmem : (u, s) ∈ Assoc.keys (upsert_session db u s r0) :=
      (Assoc.mem_keys_set_iff _ _ _ _).mpr (Or.inr rfl)
    rw [show (fun d r => upsert_session d u s r) =
        (fun d (r : SessionRow) => Assoc.set (u, s) r d) from rfl]
    rw [Assoc.countKey_foldl_set (u, s) rs _ hmem]
    rw [upsert_session, Assoc.countKey_set_not_mem hfresh,
      Assoc.countKey_eq_zero_of_not_mem hfresh]

/-- C1 amended, witness: directional flushes at clocks 60 and 120 both
carry key 7; two successive upserts under the fresh key (1, 7) leave one
row holding the second snapshot. -/
theorem C1_flush_key_protocol_amended_witness :
    ((1, 7) ∉ Assoc.keys ([] : List ((ℕ × ℕ) × SessionRow))) ∧
    (∀ k ∈ directionalPeriodicFlushKeys 7 [60, 120], k = 7) ∧
    uniquePeriodicFlushKeys 0 [60, 120] = ([0, 60, 120] : List ℕ).dropLast ∧
    finalFlushKey 7 = 7 ∧
    Assoc.lookup (1, 7)
      ([⟨2, 0, 0, 9, 120⟩].foldl (fun d r => upsert_session d 1 7 r)
        (upsert_session [] 1 7 ⟨2, 0, 0, 4, 60⟩)) =
      some ([(⟨2, 0, 0, 9, 120⟩ : SessionRow)].getLastD ⟨2, 0, 0, 4, 60⟩) ∧
    Assoc.countKey (1, 7)
      ([⟨2, 0, 0, 9, 120⟩].foldl (fun d r => upsert_session d 1 7 r)
        (upsert_session [] 1 7 ⟨2, 0, 0, 4, 60⟩)) = 1 := by
  refine ⟨by decide, ?_⟩
  exact C1_flush_key_protocol_amended 7 0 [60, 120] [] 1 7 ⟨2, 0, 0, 4, 60⟩
    [⟨2, 0, 0, 9, 120⟩] (by decide)

/-- C3: on a mid-stream decode failure the control loop of either mode
stops decoding (the `except` breaks out of the frame loop), but
`run_stream_directional` then returns `((0,0), 0)` (line 507), so with
accumulated counters up = 1, down = 2 the final snapshot handed to the
persistence gateway is `((0,0), 0)` rather than the accumulated
`((1,2), 3)`; `run_stream_unique` does return its accumulated total.  The
specification (§7, §9) states the accumulated counters should be flushed
and itself flags the discarding branch as wrong, so this is a code bug on
the directional path. -/
theorem C3_decode_failure_discards_directional_counts :
    directionalSessionResult 1 2 ExitReason.decodeFailure = ((0, 0), 0) ∧
    directionalSessionResult 1 2 ExitReason.decodeFailure ≠ ((1, 2), 3) ∧
    directionalSessionResult 1 2 ExitReason.quitKey = ((1, 2), 3) ∧
    uniqueSessionResult 5 ExitReason.decodeFailure = 5 := by
  refine ⟨rfl, ?_, rfl, rfl⟩
  decide

/-- Horizontal branch of the crossing test, solved into an exact
characterisation: up on `prev.y > L ∧ curr.y ≤ L`, down on
`prev.y < L ∧ curr.y ≥ L` (with `L = pt1.y`). -/
theorem detectCrossing_horizontal_iff (pt1 pt2 prev curr : Point)
    (b : Bucket) :
    detectCrossing .horizontal pt1 pt2 prev curr = some b ↔
      (b = .dir1 ∧ prev.2 > pt1.2 ∧ curr.2 ≤ pt1.2) ∨
      (b = .dir2 ∧ prev.2 < pt1.2 ∧ curr.2 ≥ pt1.2) := by
  unfold detectCrossing
  by_cases h1 : prev.2 > pt1.2 ∧ curr.2 ≤ pt1.2
  · rw [if_pos h1]
    constructor
    · intro h
      have hb := Option.some.inj h
      exact Or.inl ⟨hb.symm, h1⟩
    · rintro (⟨rfl, _⟩ | ⟨rfl, h2, _⟩)
      · rfl
      · exact absurd h2 (by omega)
  · rw [if_neg h1]
    by_cases h2 : prev.2 < pt1.2 ∧ curr.2 ≥ pt1.2
    · rw [if_pos h2]
      constructor
      · intro h
        have hb := Option.some.inj h
        exact Or.inr ⟨hb.symm, h2⟩
      · rintro (⟨rfl, hx⟩ | ⟨rfl, _⟩)
        · exact absurd hx h1
        · rfl
    · rw [if_neg h2]
      constructor
      · intro h
        cases h
      · rintro (⟨rfl, hx⟩ | ⟨rfl, hx⟩)
        · exact absurd hx h1
        · exact absurd hx h2

/-- Vertical branch of the crossing test: the X-axis mirror of the
horizontal one, buckets left / right. -/
theorem detectCrossing_vertical_iff (pt1 pt2 prev curr : Point)
    (b : Bucket) :
    detectCrossing .vertical pt1 pt2 prev curr = some b ↔
      (b = .dir1 ∧ prev.1 > pt1.1 ∧ curr.1 ≤ pt1.1) ∨
      (b = .dir2 ∧ prev.1 < pt1.1 ∧ curr.1 ≥ pt1.1) := by
  unfold detectCrossing
  by_cases h1 : prev.1 > pt1.1 ∧ curr.1 ≤ pt1.1
  · rw [if_pos h1]
    constructor
    · intro h
      have hb := Option.some.inj h
      exact Or.inl ⟨hb.symm, h1⟩
    · rintro (⟨rfl, _⟩ | ⟨rfl, h2, _⟩)
      · rfl
      · exact absurd h2 (by omega)
  · rw [if_neg h1]
    by_cases h2 : prev.1 < pt1.1 ∧ curr.1 ≥ pt1.1
    · rw [if_pos h2]
      constructor
      · intro h
        have hb := Option.some.inj h
        exact Or.inr ⟨hb.symm, h2⟩
      · rintro (⟨rfl, hx⟩ | ⟨rfl, _⟩)
        · exact absurd hx h1
        · rfl
    · rw [if_neg h2]
      constructor
      · intro h
        cases h
      · rintro (⟨rfl, hx⟩ | ⟨rfl, hx⟩)
        · exact absurd hx h1
        · exact absurd hx h2

/-- Crossing-up predicate exactly as the claim words it, with the line at
`round(frameHeight × position)`; the code truncates instead of
rounding. -/
def claimHorizontalUp (H : ℕ) (position : ℚ) (prev curr : Point) : Prop :=
  prev.2 > round ((H : ℚ) * position) ∧ curr.2 ≤ round ((H : ℚ) * position)

/-- Crossing-down predicate exactly as the claim words it. -/
def claimHorizontalDown (H : ℕ) (position : ℚ) (prev curr : Point) : Prop :=
  prev.2 < round ((H : ℚ) * position) ∧ curr.2 ≥ round ((H : ℚ) * position)

/-- C4 counterexample: frame height 101, position 3/4.  The code puts the
line at `int(101 * 0.75) = 75` (truncation, line 345 of `main.py`) while
the claim puts it at `round(101 * 0.75) = 76`; the move `(0,76) → (0,75)`
is detected by the code as an up-crossing, yet by the claim's predicate it
crosses nothing. -/
theorem C4_counterexample_truncation_vs_round :
    (linePoints 101 640 ⟨.horizontal, 3/4, false⟩).1.2 = 75 ∧
    round ((101 : ℚ) * (3/4)) = 76 ∧
    detectCrossing .horizontal (linePoints 101 640 ⟨.horizontal, 3/4, false⟩).1
      (linePoints 101 640 ⟨.horizontal, 3/4, false⟩).2 (0, 76) (0, 75) =
      some .dir1 ∧
    ¬ claimHorizontalUp 101 (3/4) ((0 : ℤ), (76 : ℤ)) ((0 : ℤ), (75 : ℤ)) ∧
    ¬ claimHorizontalDown 101 (3/4) ((0 : ℤ), (76 : ℤ)) ((0 : ℤ), (75 : ℤ)) := by
  have htr : truncQ ((101 : ℚ) * (3/4)) = 75 := by
    rw [truncQ, if_neg (by norm_num)]
    norm_num
  have hrd : round ((101 : ℚ) * (3/4)) = 76 := by norm_num [round_eq]
  refine ⟨?_, hrd, ?_, ?_, ?_⟩
  · simp [linePoints, htr]
  · rw [detectCrossing_horizontal_iff]
    refine Or.inl ⟨rfl, ?_⟩
    simp [linePoints, htr]
  · intro h
    unfold claimHorizontalUp at h
    norm_num [round_eq] at h
  · intro h
    unfold claimHorizontalDown at h
    norm_num [round_eq] at h

/-- C4 amended: the horizontal line sits at the truncation (equivalently
the floor, positions being nonnegative) of `frameHeight × position`, and
for an uncounted identity under the standard algorithm an up-crossing is
recorded exactly when `prevY > L ∧ currY ≤ L` and a down-crossing exactly
when `prevY < L ∧ currY ≥ L`; symmetrically on the X axis for a vertical
line at the truncation of `frameWidth × position`. -/
theorem C4_crossing_predicates_amended (H W : ℕ) (position : ℚ)
    (hpos : 0 ≤ position) (dm : Bool) (prev curr : Point) :
    (truncQ ((H : ℚ) * position) = ⌊(H : ℚ) * position⌋ ∧
     truncQ ((W : ℚ) * position) = ⌊(W : ℚ) * position⌋) ∧
    (∀ b, evalIdentity .horizontal .standard 0
        (linePoints H W ⟨.horizontal, position, dm⟩).1
        (linePoints H W ⟨.horizontal, position, dm⟩).2 prev curr false =
          (some b, true) ↔
      (b = .dir1 ∧ prev.2 > truncQ ((H : ℚ) * position) ∧
        curr.2 ≤ truncQ ((H : ℚ) * position)) ∨
      (b = .dir2 ∧ prev.2 < truncQ ((H : ℚ) * position) ∧
        curr.2 ≥ truncQ ((H : ℚ) * position))) ∧
    (∀ b, evalIdentity .vertical .standard 0
        (linePoints H W ⟨.vertical, position, dm⟩).1
        (linePoints H W ⟨.vertical, position, dm⟩).2 prev curr false =
          (some b, true) ↔
      (b = .dir1 ∧ prev.1 > truncQ ((W : ℚ) * position) ∧
        curr.1 ≤ truncQ ((W : ℚ) * position)) ∨
      (b = .dir2 ∧ prev.1 < truncQ ((W : ℚ) * position) ∧
        curr.1 ≥ truncQ ((W : ℚ) * position))) := by
  have hH : (0 : ℚ) ≤ (H : ℚ) * position :=
    mul_nonneg (by positivity) hpos
  have hW : (0 : ℚ) ≤ (W : ℚ) * position :=
    mul_nonneg (by positivity) hpos
  refine ⟨⟨?_, ?_⟩, ?_, ?_⟩
  · rw [truncQ, if_neg (not_lt.mpr hH)]
  · rw [truncQ, if_neg (not_lt.mpr hW)]
  · intro b
    have hpt : (linePoints H W ⟨.horizontal, position, dm⟩).1.2 =
        truncQ ((H : ℚ) * position) := rfl
    constructor
    · intro h
      rw [evalIdentity, if_neg (by simp)] at h
      rcases hdet : detectCrossing .horizontal
          (linePoints H W ⟨.horizontal, position, dm⟩).1
          (linePoints H W ⟨.horizontal, position, dm⟩).2 prev curr with _ | b'
      · rw [hdet] at h
        simp at h
      · rw [hdet] at h
        simp at h
        subst h
        have := (detectCrossing_horizontal_iff _ _ _ _ _).mp hdet
        rwa [hpt] at this
    · intro h
      have hdet : detectCrossing .horizontal
          (linePoints H W ⟨.horizontal, position, dm⟩).1
          (linePoints H W ⟨.horizontal, position, dm⟩).2 prev curr = some b := by
        rw [detectCrossing_horizontal_iff]
        rwa [hpt]
      simp [evalIdentity, hdet]
  · intro b
    have hpt : (linePoints H W ⟨.vertical, position, dm⟩).1.1 =
        truncQ ((W : ℚ) * position) := rfl
    constructor
    · intro h
      rw [evalIdentity, if_neg (by simp)] at h
      rcases hdet : detectCrossing .vertical
          (linePoints H W ⟨.vertical, position, dm⟩).1
          (linePoints H W ⟨.vertical, position, dm⟩).2 prev curr with _ | b'
      · rw [hdet] at h
        simp at h
      · rw [hdet] at h
        simp at h
        subst h
        have := (detectCrossing_vertical_iff _ _ _ _ _).mp hdet
        rwa [hpt] at this
    · intro h
      have hdet : detectCrossing .vertical
          (linePoints H W ⟨.vertical, position, dm⟩).1
          (linePoints H W ⟨.vertical, position, dm⟩).2 prev curr = some b := by
        rw [detectCrossing_vertical_iff]
        rwa [hpt]
      simp [evalIdentity, hdet]

/-- C4 amended witness: frame 200×640, position 1/2 (line at y = 100), the
specification example `(50,110) → (50,95)` records exactly one up
crossing. -/
theorem C4_crossing_predicates_amended_witness :
    (0 : ℚ) ≤ 1/2 ∧
    evalIdentity .horizontal .standard 0
      (linePoints 200 640 ⟨.horizontal, 1/2, false⟩).1
      (linePoints 200 640 ⟨.horizontal, 1/2, false⟩).2
      (50, 110) (50, 95) false = (some .dir1, true) := by
  have htr : truncQ (((200 : ℕ) : ℚ) * (1/2)) = 100 := by
    rw [truncQ, if_neg (by norm_num)]
    norm_num
  constructor
  · norm_num
  · refine ((C4_crossing_predicates_amended 200 640 (1/2) (by norm_num) false
      (50, 110) (50, 95)).2.1 .dir1).mpr (Or.inl ⟨rfl, ?_, ?_⟩)
    · rw [htr]
      decide
    · rw [htr]
      decide

/-- C5: under the threshold algorithm a detected crossing whose
displacement is strictly below the minimum records nothing and leaves the
counted flag false — so the same identity can still record a qualifying
crossing on a later frame — while under the standard algorithm every
detected crossing is recorded immediately and flips the flag. -/
theorem C5_displacement_gating (orientation : LineOrientation)
    (minDisp : Int) (pt1 pt2 prev curr : Point) (b : Bucket)
    (hdet : detectCrossing orientation pt1 pt2 prev curr = some b)
    (hdisp : displacement orientation prev curr < minDisp) :
    evalIdentity orientation .threshold minDisp pt1 pt2 prev curr false =
      (none, false) ∧
    (∀ prev2 curr2 b2,
      detectCrossing orientation pt1 pt2 prev2 curr2 = some b2 →
      ¬ displacement orientation prev2 curr2 < minDisp →
      evalIdentity orientation .threshold minDisp pt1 pt2 prev2 curr2 false =
        (some b2, true)) ∧
    (∀ prev2 curr2 b2,
      detectCrossing orientation pt1 pt2 prev2 curr2 = some b2 →
      evalIdentity orientation .standard minDisp pt1 pt2 prev2 curr2 false =
        (some b2, true)) := by
  refine ⟨?_, ?_, ?_⟩
  · simp [evalIdentity, hdet, hdisp]
  · intro prev2 curr2 b2 h2det h2disp
    simp [evalIdentity, h2det, h2disp]
  · intro prev2 curr2 b2 h2det
    simp [evalIdentity, h2det]

/-- C5 witness: horizontal line at y = 100, minimum displacement 15.  The
crossing `(50,105) → (50,95)` has displacement 10 < 15 and records
nothing with the flag left false; the later crossing `(50,130) → (50,90)`
of the same (still uncounted) identity, displacement 40, records. -/
theorem C5_displacement_gating_witness :
    detectCrossing .horizontal (0, 100) (640, 100) (50, 105) (50, 95) =
      some .dir1 ∧
    displacement .horizontal (50, 105) (50, 95) < 15 ∧
    evalIdentity .horizontal .threshold 15 (0, 100) (640, 100) (50, 105)
      (50, 95) false = (none, false) ∧
    evalIdentity .horizontal .threshold 15 (0, 100) (640, 100) (50, 130)
      (50, 90) false = (some .dir1, true) := by
  refine ⟨by decide, by decide, ?_, ?_⟩
  · exact (C5_displacement_gating .horizontal 15 (0, 100) (640, 100)
      (50, 105) (50, 95) .dir1 (by decide) (by decide)).1
  · exact (C5_displacement_gating .horizontal 15 (0, 100) (640, 100)
      (50, 105) (50, 95) .dir1 (by decide) (by decide)).2.1
      (50, 130) (50, 90) .dir1 (by decide) (by decide)

/-- C6: for a diagonal line the code's crossing test coincides exactly
with the claim's real-valued signed distance
`d(p) = ((p − endpoint1) × v) / |v|` (a zero length replaced by 1): a
crossing is detected for an uncounted identity iff `d(prev) · d(curr) < 0`
and the bucket is diag1 iff `d(prev) > 0`, diag2 otherwise. -/
theorem C6_diagonal_signed_distance (pt1 pt2 prev curr : Point)
    (b : Bucket) :
    let den : ℝ :=
      if pt2.1 - pt1.1 = 0 ∧ pt2.2 - pt1.2 = 0 then 1 else
        Real.sqrt (((pt2.1 - pt1.1 : ℤ) : ℝ) ^ 2 + ((pt2.2 - pt1.2 : ℤ) : ℝ) ^ 2)
    (detectCrossing .diagonal pt1 pt2 prev curr = some b ↔
      ((crossNum pt1 pt2 prev : ℝ) / den) *
        ((crossNum pt1 pt2 curr : ℝ) / den) < 0 ∧
      (b = .dir1 ↔ 0 < (crossNum pt1 pt2 prev : ℝ) / den)) := by
  intro den
  have hden : 0 < den := by
    show (0 : ℝ) <
      if pt2.1 - pt1.1 = 0 ∧ pt2.2 - pt1.2 = 0 then 1 else
        Real.sqrt (((pt2.1 - pt1.1 : ℤ) : ℝ) ^ 2 + ((pt2.2 - pt1.2 : ℤ) : ℝ) ^ 2)
    split_ifs with h
    · norm_num
    · apply Real.sqrt_pos.mpr
      rcases not_and_or.mp h with h1 | h1
      · have hne : ((pt2.1 - pt1.1 : ℤ) : ℝ) ≠ 0 := by exact_mod_cast h1
        have hp : 0 < ((pt2.1 - pt1.1 : ℤ) : ℝ) ^ 2 :=
          (sq_nonneg _).lt_of_ne (Ne.symm (pow_ne_zero 2 hne))
        exact add_pos_of_pos_of_nonneg hp (sq_nonneg _)
      · have hne : ((pt2.2 - pt1.2 : ℤ) : ℝ) ≠ 0 := by exact_mod_cast h1
        have hp : 0 < ((pt2.2 - pt1.2 : ℤ) : ℝ) ^ 2 :=
          (sq_nonneg _).lt_of_ne (Ne.symm (pow_ne_zero 2 hne))
        exact add_pos_of_nonneg_of_pos (sq_nonneg _) hp
  have key : ∀ p q : Int, ((p : ℝ) / den) * ((q : ℝ) / den) < 0 ↔ p * q < 0 := by
    intro p q
    rw [div_mul_div_comm, div_lt_iff (by positivity), zero_mul]
    exact_mod_cast Iff.rfl
  have keyPos : ∀ p : Int, 0 < (p : ℝ) / den ↔ 0 < p := by
    intro p
    rw [lt_div_iff hden, zero_mul]
    exact_mod_cast Iff.rfl
  show (if crossNum pt1 pt2 prev * crossNum pt1 pt2 curr < 0 then
      some (if crossNum pt1 pt2 prev > 0 then Bucket.dir1 else Bucket.dir2)
    else none) = some b ↔ _
  by_cases hlt : crossNum pt1 pt2 prev * crossNum pt1 pt2 curr < 0
  · rw [if_pos hlt]
    constructor
    · intro h
      have hb := Option.some.inj h
      refine ⟨(key _ _).mpr hlt, ?_⟩
      by_cases hp : crossNum pt1 pt2 prev > 0
      · rw [if_pos hp] at hb
        subst hb
        exact ⟨fun _ => (keyPos _).mpr hp, fun _ => rfl⟩
      · rw [if_neg hp] at hb
        subst hb
        constructor
        · intro h'
          cases h'
        · intro hd
          exact absurd ((keyPos _).mp hd) hp
    · rintro ⟨_, hbiff⟩
      by_cases hp : crossNum pt1 pt2 prev > 0
      · rw [if_pos hp, hbiff.mpr ((keyPos _).mpr hp)]
      · rw [if_neg hp]
        cases b with
        | dir1 => exact absurd ((keyPos _).mp (hbiff.mp rfl)) hp
        | dir2 => rfl
  · rw [if_neg hlt]
    constructor
    · intro h
      cases h
    · rintro ⟨hprod, _⟩
      exact absurd ((key _ _).mp hprod) hlt

set_option maxRecDepth 40000 in
/-- C7: with the tolerance 40 of `CentroidTracker(maxDisappeared=40)`, an
identity whose disappearance count is 0 is still tracked after its 40th
consecutive unmatched frame and deregistered on the 41st.  The first part
covers the empty-input branch for an arbitrary well-formed tracker; the
second exercises the unmatched-row branch through the concrete scenario
where identity 1 loses the greedy match on every frame. -/
theorem C7_disappearance_tolerance (t : CentroidTracker) (id : Nat)
    (wf : t.WF) (hmax : t.maxDisappeared = 40)
    (h0 : Assoc.lookup id t.disappeared = some 0) :
    (id ∈ Assoc.keys ((CentroidTracker.update [])^[40] t).objects ∧
     id ∉ Assoc.keys ((CentroidTracker.update [])^[41] t).objects) ∧
    (1 ∈ Assoc.keys (unmatchedRowScenario 40).objects ∧
     1 ∉ Assoc.keys (unmatchedRowScenario 41).objects) := by
  have h40 := CentroidTracker.iterate_update_nil 40 t 0 wf h0 (by omega)
  refine ⟨⟨?_, ?_⟩, by decide, by decide⟩
  · have hsome :
        (Assoc.lookup id ((CentroidTracker.update [])^[40] t).disappeared).isSome := by
      rw [h40.1]
      rfl
    exact h40.2.1.keysDis ▸ (Assoc.lookup_isSome_iff_mem_keys _ _).mp hsome
  · rw [Function.iterate_succ_apply']
    have hstep := CentroidTracker.update_nil_self h40.2.1 h40.1
    apply hstep.1
    rw [h40.2.2, hmax]
    omega

/-- C7 witness: one freshly registered identity in a tolerance-40 tracker
survives 40 empty updates and is removed by the 41st. -/
theorem C7_disappearance_tolerance_witness :
    ((CentroidTracker.init 40).register (9, 9)).maxDisappeared = 40 ∧
    Assoc.lookup 0 ((CentroidTracker.init 40).register (9, 9)).disappeared =
      some 0 ∧
    ((0 ∈ Assoc.keys ((CentroidTracker.update [])^[40]
        ((CentroidTracker.init 40).register (9, 9))).objects ∧
      0 ∉ Assoc.keys ((CentroidTracker.update [])^[41]
        ((CentroidTracker.init 40).register (9, 9))).objects) ∧
     (1 ∈ Assoc.keys (unmatchedRowScenario 40).objects ∧
      1 ∉ Assoc.keys (unmatchedRowScenario 41).objects)) := by
  refine ⟨rfl, rfl, ?_⟩
  exact C7_disappearance_tolerance _ 0 ⟨rfl, rfl, rfl, by decide, by decide⟩
    rfl rfl

/-- Indexing with a default inside the list's bounds lands in the list. -/
theorem getD_mem_of_lt {α : Type} :
    ∀ {l : List α} {i : Nat}, i < l.length → ∀ (d : α), l.getD i d ∈ l
  | [], i, h, _ => absurd h (by simp)
  | a :: l, 0, _, d => List.mem_cons_self a l
  | a :: l, i + 1, h, d =>
    List.mem_cons_of_mem a (getD_mem_of_lt (Nat.lt_of_succ_lt_succ h) d)

namespace CentroidTracker

theorem matchOne_counted (cs : List Point) (objectIDs : List Nat)
    (t : CentroidTracker) (rc : Nat × Nat) :
    (matchOne cs objectIDs t rc).counted = t.counted := rfl

theorem matchOne_nextObjectID (cs : List Point) (objectIDs : List Nat)
    (t : CentroidTracker) (rc : Nat × Nat) :
    (matchOne cs objectIDs t rc).nextObjectID = t.nextObjectID := rfl

theorem matchOne_maxDisappeared (cs : List Point) (objectIDs : List Nat)
    (t : CentroidTracker) (rc : Nat × Nat) :
    (matchOne cs objectIDs t rc).maxDisappeared = t.maxDisappeared := rfl

theorem wf_matchOne {cs : List Point} {objectIDs : List Nat}
    {t : CentroidTracker} {rc : Nat × Nat} (wf : t.WF)
    (h : objectIDs.getD rc.1 0 ∈ Assoc.keys t.objects) :
    (matchOne cs objectIDs t rc).WF ∧
    Assoc.keys (matchOne cs objectIDs t rc).objects =
      Assoc.keys t.objects := by
  have hd : objectIDs.getD rc.1 0 ∈ Assoc.keys t.disappeared := wf.keysDis ▸ h
  have hp : objectIDs.getD rc.1 0 ∈ Assoc.keys t.previousCentroids :=
    wf.keysPrev ▸ h
  have ho : Assoc.keys (matchOne cs objectIDs t rc).objects =
      Assoc.keys t.objects := by
    show Assoc.keys (Assoc.set _ _ t.objects) = _
    rw [Assoc.keys_set, if_pos h]
  refine ⟨⟨?_, ?_, ?_, ?_, ?_⟩, ho⟩
  · show Assoc.keys (Assoc.set _ _ t.disappeared) = _
    rw [Assoc.keys_set, if_pos hd, ho, wf.keysDis]
  · show Assoc.keys (Assoc.set _ _ t.previousCentroids) = _
    rw [Assoc.keys_set, if_pos hp, ho, wf.keysPrev]
  · show Assoc.keys t.counted = _
    rw [ho, wf.keysCnt]
  · rw [ho]
    exact wf.nodup
  · rw [ho]
    exact wf.bounded

/-- Invariants carried through the whole matching fold: well-formedness,
the unchanged key list, counter, tolerance, and the untouched `counted`
dict. -/
theorem matchFold_facts (cs : List Point) (objectIDs : List Nat) :
    ∀ (l : List (Nat × Nat)) (acc : CentroidTracker × List Nat × List Nat),
      acc.1.WF → Assoc.keys acc.1.objects = objectIDs →
      (∀ rc ∈ l, rc.1 < objectIDs.length) →
      (l.foldl (matchStep cs objectIDs) acc).1.WF ∧
      Assoc.keys (l.foldl (matchStep cs objectIDs) acc).1.objects =
        objectIDs ∧
      (l.foldl (matchStep cs objectIDs) acc).1.nextObjectID =
        acc.1.nextObjectID ∧
      (l.foldl (matchStep cs objectIDs) acc).1.maxDisappeared =
        acc.1.maxDisappeared ∧
      (l.foldl (matchStep cs objectIDs) acc).1.counted = acc.1.counted
  | [], acc, wf, hk, _ => ⟨wf, hk, rfl, rfl, rfl⟩
  | rc :: l, acc, wf, hk, hlt => by
    rw [List.foldl_cons]
    by_cases hcond : rc.1 ∈ acc.2.1 ∨ rc.2 ∈ acc.2.2
    · rw [show matchStep cs objectIDs acc rc = acc from if_pos hcond]
      exact matchFold_facts cs objectIDs l acc wf hk
        (fun x hx => hlt x (List.mem_cons_of_mem rc hx))
    · rw [show matchStep cs objectIDs acc rc =
          (matchOne cs objectIDs acc.1 rc, rc.1 :: acc.2.1, rc.2 :: acc.2.2)
          from if_neg hcond]
      have hmem : objectIDs.getD rc.1 0 ∈ Assoc.keys acc.1.objects := by
        rw [hk]
        exact getD_mem_of_lt (hlt rc (List.mem_cons_self rc l)) 0
      have hm : (matchOne cs objectIDs acc.1 rc).WF ∧
        Assoc.keys (matchOne cs objectIDs acc.1 rc).objects =
          Assoc.keys acc.1.objects := wf_matchOne wf hmem
      have ih := matchFold_facts cs objectIDs l
        (matchOne cs objectIDs acc.1 rc, rc.1 :: acc.2.1, rc.2 :: acc.2.2)
        hm.1 (hm.2.trans hk)
        (fun x hx => hlt x (List.mem_cons_of_mem rc hx))
      refine ⟨ih.1, ih.2.1, ?_, ?_, ?_⟩
      · exact ih.2.2.1.trans (matchOne_nextObjectID cs objectIDs acc.1 rc)
      · exact ih.2.2.2.1.trans (matchOne_maxDisappeared cs objectIDs acc.1 rc)
      · exact ih.2.2.2.2.trans (matchOne_counted cs objectIDs acc.1 rc)

theorem lookup_ageOne_counted_cases (t : CentroidTracker) (j i : Nat) :
    Assoc.lookup i (ageOne t j).counted = Assoc.lookup i t.counted ∨
    Assoc.lookup i (ageOne t j).counted = none := by
  unfold ageOne
  dsimp only
  split
  · unfold deregister
    split
    · by_cases hji : j = i
      · subst hji
        exact Or.inr (Assoc.lookup_erase_self j t.counted)
      · exact Or.inl (Assoc.lookup_erase_ne hji t.counted)
    · exact Or.inl rfl
  · exact Or.inl rfl

/-- Through any fold of aging steps, a `counted` entry is either untouched
or gone (never rewritten). -/
theorem foldl_ageOne_counted_cases {β : Type} (g : β → Nat) :
    ∀ (L : List β) (t : CentroidTracker) (i : Nat),
      Assoc.lookup i ((L.foldl (fun s x => ageOne s (g x)) t)).counted =
        Assoc.lookup i t.counted ∨
      Assoc.lookup i ((L.foldl (fun s x => ageOne s (g x)) t)).counted = none
  | [], _, _ => Or.inl rfl
  | x :: L, t, i => by
    rw [List.foldl_cons]
    rcases foldl_ageOne_counted_cases g L (ageOne t (g x)) i with h | h
    · rcases lookup_ageOne_counted_cases t (g x) i with h2 | h2
      · exact Or.inl (h.trans h2)
      · exact Or.inr (h.trans h2)
    · exact Or.inr h

/-- Facts about a fold of registrations: well-formedness is kept, the id
counter advances by one per registration, the new keys are exactly the
consecutive block of assigned ids appended at the end, and all state of
previously existing identities is untouched. -/
theorem foldl_register_facts :
    ∀ (cs : List Point) (t : CentroidTracker), t.WF →
      (cs.foldl (fun s c => register c s) t).WF ∧
      (cs.foldl (fun s c => register c s) t).nextObjectID =
        t.nextObjectID + cs.length ∧
      (cs.foldl (fun s c => register c s) t).maxDisappeared =
        t.maxDisappeared ∧
      Assoc.keys (cs.foldl (fun s c => register c s) t).objects =
        Assoc.keys t.objects ++ List.range' t.nextObjectID cs.length ∧
      ∀ i, i < t.nextObjectID →
        Assoc.lookup i (cs.foldl (fun s c => register c s) t).objects =
          Assoc.lookup i t.objects ∧
        Assoc.lookup i (cs.foldl (fun s c => register c s) t).disappeared =
          Assoc.lookup i t.disappeared ∧
        Assoc.lookup i (cs.foldl (fun s c => register c s) t).previousCentroids =
          Assoc.lookup i t.previousCentroids ∧
        Assoc.lookup i (cs.foldl (fun s c => register c s) t).counted =
          Assoc.lookup i t.counted
  | [], t, wf => ⟨wf, rfl, rfl, by simp, fun i _ => ⟨rfl, rfl, rfl, rfl⟩⟩
  | c :: cs, t, wf => by
    rw [List.foldl_cons]
    have hfresh : t.nextObjectID ∉ Assoc.keys t.objects := fun hmem =>
      lt_irrefl _ (wf.bounded _ hmem)
    have wf' := wf_register c wf
    have ih := foldl_register_facts cs (register c t) wf'
    refine ⟨ih.1, ?_, ih.2.2.1.trans (register_maxDisappeared c t), ?_, ?_⟩
    · rw [ih.2.1, register_nextObjectID]
      simp only [List.length_cons]
      omega
    · rw [ih.2.2.2.1, keys_register_objects c t hfresh, register_nextObjectID,
        List.append_assoc]
      simp only [List.length_cons]
      rw [List.range'_succ]
      rfl
    · intro i hi
      have hne : t.nextObjectID ≠ i := fun he => absurd (he ▸ hi) (lt_irrefl _)
      have hi' : i < (register c t).nextObjectID := by
        rw [register_nextObjectID]
        omega
      have step := ih.2.2.2.2 i hi'
      exact ⟨step.1.trans (lookup_register_objects_ne hne c),
        step.2.1.trans (lookup_register_disappeared_ne hne c),
        step.2.2.1.trans (lookup_register_previous_ne hne c),
        step.2.2.2.trans (lookup_register_counted_ne hne c)⟩

end CentroidTracker

/-- Indexing with a default inside the bounds is plain indexing. -/
theorem getD_eq_getElem {α : Type} :
    ∀ {l : List α} {i : Nat} (h : i < l.length) (d : α),
      l.getD i d = l[i]
  | _ :: _, 0, _, _ => rfl
  | _ :: l, i + 1, h, d => getD_eq_getElem (Nat.lt_of_succ_lt_succ h) d

namespace CentroidTracker

/-- The combined facts about the matching branch of `update`:
well-formedness is preserved, the id counter only advances, the tolerance
is unchanged, per-identity `counted` entries of previously live ids are
kept or dropped but never rewritten, and the key list after the call is
some kept part of the old keys followed by the block of freshly assigned
consecutive ids. -/
theorem updateMatched_facts {t : CentroidTracker} (wf : t.WF)
    (dets : List Point) :
    (updateMatched dets t).WF ∧
    t.nextObjectID ≤ (updateMatched dets t).nextObjectID ∧
    (updateMatched dets t).maxDisappeared = t.maxDisappeared ∧
    (∀ i, Assoc.lookup i (updateMatched dets t).counted =
        Assoc.lookup i t.counted ∨
      (Assoc.lookup i (updateMatched dets t).counted = none ∨
        t.nextObjectID ≤ i)) ∧
    (∃ kept : List Nat, (∀ x ∈ kept, x ∈ Assoc.keys t.objects) ∧
      Assoc.keys (updateMatched dets t).objects =
        kept ++ List.range' t.nextObjectID
          ((updateMatched dets t).nextObjectID - t.nextObjectID)) := by
  unfold updateMatched
  simp only []
  set objectIDs := Assoc.keys t.objects with hids
  set n := objectIDs.length
  set m := dets.length
  set D := distMatrix (t.objects.map Prod.snd) dets
  set rows := argsortBy (fun r => minVal (D r) m) n with hrows
  set cols := rows.map (fun r => argminIdx (D r) m) with hcols
  set folded := (rows.zip cols).foldl (matchStep dets objectIDs)
    (t, ([], [])) with hfolded
  have hrowmem : ∀ rc ∈ rows.zip cols, rc.1 < objectIDs.length := by
    intro rc hrc
    have h1 : rc.1 ∈ rows := (List.of_mem_zip hrc).1
    have h2 : rc.1 ∈ List.range n :=
      (List.perm_insertionSort _ (List.range n)).subset h1
    exact List.mem_range.mp h2
  have A := matchFold_facts dets objectIDs (rows.zip cols) (t, ([], []))
    wf rfl hrowmem
  rw [← hfolded] at A
  set unusedRows := (List.range n).filter (fun r => r ∉ folded.2.1)
    with hunused
  set agedIDs := unusedRows.map (fun r => objectIDs.getD r 0) with haged
  have hagefold : unusedRows.foldl
      (fun s r => ageOne s (objectIDs.getD r 0)) folded.1 =
      agedIDs.foldl ageOne folded.1 := by
    rw [haged, List.foldl_map]
  set t2 := unusedRows.foldl (fun s r => ageOne s (objectIDs.getD r 0))
    folded.1 with ht2
  have hurlt : ∀ r ∈ unusedRows, r < n := by
    intro r hr
    have := List.of_mem_filter hr
    exact List.mem_range.mp (List.mem_of_mem_filter hr)
  have hagednodup : agedIDs.Nodup := by
    rw [haged]
    refine List.Nodup.map_on ?_ (List.Nodup.filter _ (List.nodup_range n))
    intro x hx y hy hxy
    have hxn := hurlt x hx
    have hyn := hurlt y hy
    rw [getD_eq_getElem hxn, getD_eq_getElem hyn] at hxy
    have hnd : objectIDs.Nodup := by
      rw [hids]
      exact wf.nodup
    exact hnd.getElem_inj_iff.mp hxy
  have hagedmem : ∀ x ∈ agedIDs, x ∈ Assoc.keys folded.1.objects := by
    intro x hx
    rw [A.2.1]
    rw [haged] at hx
    rcases List.mem_map.mp hx with ⟨r, hr, rfl⟩
    exact getD_mem_of_lt (hurlt r hr) 0
  have B := wf_foldl_ageOne agedIDs hagednodup folded.1 A.1 hagedmem
  rw [← hagefold] at B
  have ht2next : t2.nextObjectID = t.nextObjectID := B.2.1.trans A.2.2.1
  have ht2max : t2.maxDisappeared = t.maxDisappeared :=
    B.2.2.trans A.2.2.2.1
  set unusedCols := (List.range m).filter (fun c => c ∉ folded.2.2)
    with hcolsu
  set newCents := unusedCols.map (fun c => dets.getD c (0, 0)) with hnew
  have hregfold : unusedCols.foldl
      (fun s c => register (dets.getD c (0, 0)) s) t2 =
      newCents.foldl (fun s c => register c s) t2 := by
    rw [hnew, List.foldl_map]
  have C := foldl_register_facts newCents t2 B.1
  rw [← hregfold] at C
  set t3 := unusedCols.foldl (fun s c => register (dets.getD c (0, 0)) s) t2
    with ht3
  refine ⟨C.1, ?_, C.2.2.1.trans ht2max, ?_, ?_⟩
  · rw [C.2.1, ht2next]
    omega
  · intro i
    by_cases hi : i < t.nextObjectID
    · have hci := (C.2.2.2.2 i (by rw [ht2next]; exact hi)).2.2.2
      have hc2 : Assoc.lookup i t2.counted = Assoc.lookup i folded.1.counted ∨
          Assoc.lookup i t2.counted = none := by
        rw [ht2]
        exact foldl_ageOne_counted_cases (fun r => objectIDs.getD r 0)
          unusedRows folded.1 i
      rcases hc2 with h | h
      · exact Or.inl (hci.trans (h.trans (by rw [A.2.2.2.2])))
      · exact Or.inr (Or.inl (hci.trans h))
    · exact Or.inr (Or.inr (by omega))
  · refine ⟨Assoc.keys t2.objects, ?_, ?_⟩
    · intro x hx
      have hx1 : x ∈ Assoc.keys folded.1.objects := by
        rw [hagefold] at hx
        by_contra hno
        exact not_mem_keys_foldl_ageOne agedIDs folded.1 hno hx
      rw [A.2.1] at hx1
      exact hx1
    · rw [C.2.2.2.1, C.2.1, ht2next]
      have : t.nextObjectID + newCents.length - t.nextObjectID =
          newCents.length := by omega
      rw [this]

end CentroidTracker

namespace CentroidTracker

/-- Facts about one `update` call, whatever branch it takes:
well-formedness is preserved, the id counter never decreases, the
tolerance is unchanged, and a previously live identity's `counted` entry
is kept or dropped, never rewritten (a fresh id at or above the old
counter may of course appear with a fresh flag). -/
theorem update_facts {t : CentroidTracker} (wf : t.WF) (dets : List Point) :
    (update dets t).WF ∧
    t.nextObjectID ≤ (update dets t).nextObjectID ∧
    (update dets t).maxDisappeared = t.maxDisappeared ∧
    (∀ i, Assoc.lookup i (update dets t).counted =
        Assoc.lookup i t.counted ∨
      (Assoc.lookup i (update dets t).counted = none ∨
        t.nextObjectID ≤ i)) := by
  unfold update
  split
  · have h := wf_foldl_ageOne (Assoc.keys t.disappeared)
      (wf.keysDis ▸ wf.nodup) t wf (fun x hx => wf.keysDis ▸ hx)
    refine ⟨h.1, le_of_eq h.2.1.symm, h.2.2, ?_⟩
    intro i
    rcases foldl_ageOne_counted_cases (fun x => x) (Assoc.keys t.disappeared)
        t i with h2 | h2
    · exact Or.inl h2
    · exact Or.inr (Or.inl h2)
  · split
    · have h := foldl_register_facts dets t wf
      refine ⟨h.1, ?_, h.2.2.1, ?_⟩
      · rw [h.2.1]
        exact Nat.le_add_right _ _
      · intro i
        by_cases hi : i < t.nextObjectID
        · exact Or.inl (h.2.2.2.2 i hi).2.2.2
        · exact Or.inr (Or.inr (by omega))
    · have h := updateMatched_facts wf dets
      exact ⟨h.1, h.2.1, h.2.2.1, h.2.2.2.1⟩

/-- Keys of the tracker after `update`: each is either an old key or one
of the block of freshly assigned ids. -/
theorem update_keys {t : CentroidTracker} (wf : t.WF) (dets : List Point) :
    ∃ kept : List Nat, (∀ x ∈ kept, x ∈ Assoc.keys t.objects) ∧
      Assoc.keys (update dets t).objects =
        kept ++ List.range' t.nextObjectID
          ((update dets t).nextObjectID - t.nextObjectID) := by
  unfold update
  split
  · have h := wf_foldl_ageOne (Assoc.keys t.disappeared)
      (wf.keysDis ▸ wf.nodup) t wf (fun x hx => wf.keysDis ▸ hx)
    refine ⟨Assoc.keys ((Assoc.keys t.disappeared).foldl ageOne t).objects,
      ?_, ?_⟩
    · intro x hx
      by_contra hno
      exact not_mem_keys_foldl_ageOne _ t hno hx
    · rw [h.2.1]
      simp
  · split
    · have h := foldl_register_facts dets t wf
      refine ⟨Assoc.keys t.objects, fun x hx => hx, ?_⟩
      rw [h.2.2.2.1, h.2.1]
      have : t.nextObjectID + dets.length - t.nextObjectID = dets.length := by
        omega
      rw [this]
    · exact (updateMatched_facts wf dets).2.2.2.2

end CentroidTracker

theorem dirCountStep_objects (orientation : LineOrientation)
    (algorithm : CountingAlgorithm) (minDisp : Int) (pt1 pt2 : Point)
    (acc : DirectionalState) (e : Nat × Point) :
    (dirCountStep orientation algorithm minDisp pt1 pt2 acc e).tracker.objects
      = acc.tracker.objects := by
  unfold dirCountStep
  dsimp only
  split <;> rfl

theorem dirCountStep_next (orientation : LineOrientation)
    (algorithm : CountingAlgorithm) (minDisp : Int) (pt1 pt2 : Point)
    (acc : DirectionalState) (e : Nat × Point) :
    (dirCountStep orientation algorithm minDisp pt1
      pt2 acc e).tracker.nextObjectID = acc.tracker.nextObjectID := by
  unfold dirCountStep
  dsimp only
  split <;> rfl

theorem dirCountStep_counted_true {orientation : LineOrientation}
    {algorithm : CountingAlgorithm} {minDisp : Int} {pt1 pt2 : Point}
    {acc : DirectionalState} {e : Nat × Point} {i : Nat}
    (h : Assoc.lookup i acc.tracker.counted = some true) :
    Assoc.lookup i (dirCountStep orientation algorithm minDisp pt1
      pt2 acc e).tracker.counted = some true := by
  unfold dirCountStep
  dsimp only
  split
  · by_cases he : e.1 = i
    · subst he
      exact Assoc.lookup_set_self e.1 true acc.tracker.counted
    · exact (Assoc.lookup_set_ne he true acc.tracker.counted).trans h
  · exact h

theorem dirCountStep_counted_ne {orientation : LineOrientation}
    {algorithm : CountingAlgorithm} {minDisp : Int} {pt1 pt2 : Point}
    {acc : DirectionalState} {e : Nat × Point} {i : Nat} (h : e.1 ≠ i) :
    Assoc.lookup i (dirCountStep orientation algorithm minDisp pt1
      pt2 acc e).tracker.counted = Assoc.lookup i acc.tracker.counted := by
  unfold dirCountStep
  dsimp only
  split
  · exact Assoc.lookup_set_ne h true acc.tracker.counted
  · rfl

theorem dirCountStep_wf {orientation : LineOrientation}
    {algorithm : CountingAlgorithm} {minDisp : Int} {pt1 pt2 : Point}
    {acc : DirectionalState} {e : Nat × Point}
    (wf : acc.tracker.WF) (he : e.1 ∈ Assoc.keys acc.tracker.objects) :
    (dirCountStep orientation algorithm minDisp pt1 pt2 acc e).tracker.WF := by
  unfold dirCountStep
  dsimp only
  split
  · have hc : e.1 ∈ Assoc.keys acc.tracker.counted := wf.keysCnt ▸ he
    have hk : Assoc.keys (Assoc.set e.1 true acc.tracker.counted) =
        Assoc.keys acc.tracker.counted := by
      rw [Assoc.keys_set, if_pos hc]
    exact ⟨wf.keysDis, wf.keysPrev, hk.trans wf.keysCnt, wf.nodup, wf.bounded⟩
  · exact wf

/-- The directional counting fold: well-formed states stay well-formed,
objects and the id counter are untouched, a true `counted` flag stays
true, and flags of identities outside the walked entries are untouched. -/
theorem dirFold_facts (orientation : LineOrientation)
    (algorithm : CountingAlgorithm) (minDisp : Int) (pt1 pt2 : Point) :
    ∀ (l : List (Nat × Point)) (acc : DirectionalState), acc.tracker.WF →
      (∀ e ∈ l, e.1 ∈ Assoc.keys acc.tracker.objects) →
      ((l.foldl (dirCountStep orientation algorithm minDisp pt1
          pt2) acc).tracker.WF ∧
       (l.foldl (dirCountStep orientation algorithm minDisp pt1
          pt2) acc).tracker.nextObjectID = acc.tracker.nextObjectID ∧
       (∀ i, Assoc.lookup i acc.tracker.counted = some true →
         Assoc.lookup i (l.foldl (dirCountStep orientation algorithm minDisp
           pt1 pt2) acc).tracker.counted = some true) ∧
       (∀ i, (∀ e ∈ l, e.1 ≠ i) →
         Assoc.lookup i (l.foldl (dirCountStep orientation algorithm minDisp
             pt1 pt2) acc).tracker.counted =
           Assoc.lookup i acc.tracker.counted))
  | [], acc, wf, _ => ⟨wf, rfl, fun _ h => h, fun _ _ => rfl⟩
  | e :: l, acc, wf, hmem => by
    rw [List.foldl_cons]
    have he := hmem e (List.mem_cons_self e l)
    have wf' : (dirCountStep orientation algorithm minDisp pt1
        pt2 acc e).tracker.WF := dirCountStep_wf wf he
    have hobj := dirCountStep_objects orientation algorithm minDisp pt1 pt2
      acc e
    have ih := dirFold_facts orientation algorithm minDisp pt1 pt2 l
      (dirCountStep orientation algorithm minDisp pt1 pt2 acc e) wf'
      (fun x hx => hobj ▸ hmem x (List.mem_cons_of_mem e hx))
    refine ⟨ih.1, ih.2.1.trans (dirCountStep_next orientation algorithm
      minDisp pt1 pt2 acc e), ?_, ?_⟩
    · intro i h
      exact ih.2.2.1 i (dirCountStep_counted_true h)
    · intro i h
      have h1 := ih.2.2.2 i (fun x hx => h x (List.mem_cons_of_mem e hx))
      exact h1.trans (dirCountStep_counted_ne (h e (List.mem_cons_self e l)))

theorem uniqueCountStep_objects (acc : UniqueState) (e : Nat × Point) :
    (uniqueCountStep acc e).tracker.objects = acc.tracker.objects := by
  unfold uniqueCountStep
  split <;> rfl

theorem uniqueCountStep_next (acc : UniqueState) (e : Nat × Point) :
    (uniqueCountStep acc e).tracker.nextObjectID =
      acc.tracker.nextObjectID := by
  unfold uniqueCountStep
  split <;> rfl

theorem uniqueCountStep_counted_true {acc : UniqueState} {e : Nat × Point}
    {i : Nat} (h : Assoc.lookup i acc.tracker.counted = some true) :
    Assoc.lookup i (uniqueCountStep acc e).tracker.counted = some true := by
  unfold uniqueCountStep
  split
  · exact h
  · by_cases he : e.1 = i
    · subst he
      exact Assoc.lookup_set_self e.1 true acc.tracker.counted
    · exact (Assoc.lookup_set_ne he true acc.tracker.counted).trans h

theorem uniqueCountStep_counted_ne {acc : UniqueState} {e : Nat × Point}
    {i : Nat} (h : e.1 ≠ i) :
    Assoc.lookup i (uniqueCountStep acc e).tracker.counted =
      Assoc.lookup i acc.tracker.counted := by
  unfold uniqueCountStep
  split
  · rfl
  · exact Assoc.lookup_set_ne h true acc.tracker.counted

theorem uniqueCountStep_wf {acc : UniqueState} {e : Nat × Point}
    (wf : acc.tracker.WF) (he : e.1 ∈ Assoc.keys acc.tracker.objects) :
    (uniqueCountStep acc e).tracker.WF := by
  unfold uniqueCountStep
  split
  · exact wf
  · have hc : e.1 ∈ Assoc.keys acc.tracker.counted := wf.keysCnt ▸ he
    have hk : Assoc.keys (Assoc.set e.1 true acc.tracker.counted) =
        Assoc.keys acc.tracker.counted := by
      rw [Assoc.keys_set, if_pos hc]
    exact ⟨wf.keysDis, wf.keysPrev, hk.trans wf.keysCnt, wf.nodup, wf.bounded⟩

/-- The unique counting fold: analogous facts. -/
theorem uniqueFold_facts :
    ∀ (l : List (Nat × Point)) (acc : UniqueState), acc.tracker.WF →
      (∀ e ∈ l, e.1 ∈ Assoc.keys acc.tracker.objects) →
      ((l.foldl uniqueCountStep acc).tracker.WF ∧
       (l.foldl uniqueCountStep acc).tracker.nextObjectID =
         acc.tracker.nextObjectID ∧
       (∀ i, Assoc.lookup i acc.tracker.counted = some true →
         Assoc.lookup i (l.foldl uniqueCountStep acc).tracker.counted =
           some true) ∧
       (∀ i, (∀ e ∈ l, e.1 ≠ i) →
         Assoc.lookup i (l.foldl uniqueCountStep acc).tracker.counted =
           Assoc.lookup i acc.tracker.counted))
  | [], acc, wf, _ => ⟨wf, rfl, fun _ h => h, fun _ _ => rfl⟩
  | e :: l, acc, wf, hmem => by
    rw [List.foldl_cons]
    have he := hmem e (List.mem_cons_self e l)
    have wf' := uniqueCountStep_wf wf he
    have hobj := uniqueCountStep_objects acc e
    have ih := uniqueFold_facts l (uniqueCountStep acc e) wf'
      (fun x hx => hobj ▸ hmem x (List.mem_cons_of_mem e hx))
    refine ⟨ih.1, ih.2.1.trans (uniqueCountStep_next acc e), ?_, ?_⟩
    · intro i h
      exact ih.2.2.1 i (uniqueCountStep_counted_true h)
    · intro i h
      have h1 := ih.2.2.2 i (fun x hx => h x (List.mem_cons_of_mem e hx))
      exact h1.trans (uniqueCountStep_counted_ne (h e (List.mem_cons_self e l)))

/-- One directional frame: well-formedness kept, the id counter never
decreases, a true flag stays true or its identity disappears, and a gone
identity (below the id counter) stays gone. -/
theorem directionalFrameStep_facts (opts : LineOptions)
    (algorithm : CountingAlgorithm) (minDisp : Int) (H W : ℕ)
    (dets : List Point) {s : DirectionalState} (wf : s.tracker.WF) :
    ((directionalFrameStep opts algorithm minDisp H W dets s).tracker.WF ∧
     s.tracker.nextObjectID ≤
       (directionalFrameStep opts algorithm minDisp H W dets s).tracker.nextObjectID ∧
     (∀ i, Assoc.lookup i s.tracker.counted = some true →
       Assoc.lookup i (directionalFrameStep opts algorithm minDisp H W dets s).tracker.counted = some true ∨
       Assoc.lookup i (directionalFrameStep opts algorithm minDisp H W dets s).tracker.counted = none) ∧
     (∀ i, i < s.tracker.nextObjectID →
       Assoc.lookup i s.tracker.counted = none →
       Assoc.lookup i (directionalFrameStep opts algorithm minDisp H W dets s).tracker.counted = none)) := by
  have U := CentroidTracker.update_facts wf dets
  have hentries : ∀ e ∈ (CentroidTracker.update dets s.tracker).objects,
      e.1 ∈ Assoc.keys (CentroidTracker.update dets s.tracker).objects := by
    intro e he
    exact List.mem_map_of_mem Prod.fst he
  have F := dirFold_facts opts.orientation algorithm minDisp
    (linePoints H W opts).1 (linePoints H W opts).2
    (CentroidTracker.update dets s.tracker).objects
    { s with tracker := CentroidTracker.update dets s.tracker } U.1 hentries
  refine ⟨F.1, le_trans U.2.1 (le_of_eq F.2.1.symm), ?_, ?_⟩
  · intro i h
    have hi : i < s.tracker.nextObjectID := by
      apply wf.bounded
      rw [← wf.keysCnt]
      rw [← Assoc.lookup_isSome_iff_mem_keys, h]
      rfl
    rcases U.2.2.2 i with h1 | h1 | h1
    · exact Or.inl (F.2.2.1 i (h1.trans h))
    · refine Or.inr ?_
      have hmem : ∀ e ∈ (CentroidTracker.update dets s.tracker).objects,
          e.1 ≠ i := by
        intro e he hei
        have : i ∈ Assoc.keys (CentroidTracker.update dets s.tracker).counted := by
          rw [U.1.keysCnt]
          exact hei ▸ List.mem_map_of_mem Prod.fst he
        rw [← Assoc.lookup_isSome_iff_mem_keys, h1] at this
        exact absurd this (by simp)
      exact (F.2.2.2 i hmem).trans h1
    · omega
  · intro i hi h
    have h1 : Assoc.lookup i
        (CentroidTracker.update dets s.tracker).counted = none := by
      rcases U.2.2.2 i with h1 | h1 | h1
      · exact h1.trans h
      · exact h1
      · omega
    have hmem : ∀ e ∈ (CentroidTracker.update dets s.tracker).objects,
        e.1 ≠ i := by
      intro e he hei
      have : i ∈ Assoc.keys (CentroidTracker.update dets s.tracker).counted := by
        rw [U.1.keysCnt]
        exact hei ▸ List.mem_map_of_mem Prod.fst he
      rw [← Assoc.lookup_isSome_iff_mem_keys, h1] at this
      exact absurd this (by simp)
    exact (F.2.2.2 i hmem).trans h1

/-- One unique-mode frame: the same facts. -/
theorem uniqueFrameStep_facts (dets : List Point) {s : UniqueState}
    (wf : s.tracker.WF) :
    ((uniqueFrameStep dets s).tracker.WF ∧
     s.tracker.nextObjectID ≤ (uniqueFrameStep dets s).tracker.nextObjectID ∧
     (∀ i, Assoc.lookup i s.tracker.counted = some true →
       Assoc.lookup i (uniqueFrameStep dets s).tracker.counted = some true ∨
       Assoc.lookup i (uniqueFrameStep dets s).tracker.counted = none) ∧
     (∀ i, i < s.tracker.nextObjectID →
       Assoc.lookup i s.tracker.counted = none →
       Assoc.lookup i (uniqueFrameStep dets s).tracker.counted = none)) := by
  have U := CentroidTracker.update_facts wf dets
  have hentries : ∀ e ∈ (CentroidTracker.update dets s.tracker).objects,
      e.1 ∈ Assoc.keys (CentroidTracker.update dets s.tracker).objects := by
    intro e he
    exact List.mem_map_of_mem Prod.fst he
  have F := uniqueFold_facts (CentroidTracker.update dets s.tracker).objects
    { s with tracker := CentroidTracker.update dets s.tracker } U.1 hentries
  refine ⟨F.1, le_trans U.2.1 (le_of_eq F.2.1.symm), ?_, ?_⟩
  · intro i h
    have hi : i < s.tracker.nextObjectID := by
      apply wf.bounded
      rw [← wf.keysCnt]
      rw [← Assoc.lookup_isSome_iff_mem_keys, h]
      rfl
    rcases U.2.2.2 i with h1 | h1 | h1
    · exact Or.inl (F.2.2.1 i (h1.trans h))
    · refine Or.inr ?_
      have hmem : ∀ e ∈ (CentroidTracker.update dets s.tracker).objects,
          e.1 ≠ i := by
        intro e he hei
        have : i ∈ Assoc.keys (CentroidTracker.update dets s.tracker).counted := by
          rw [U.1.keysCnt]
          exact hei ▸ List.mem_map_of_mem Prod.fst he
        rw [← Assoc.lookup_isSome_iff_mem_keys, h1] at this
        exact absurd this (by simp)
      exact (F.2.2.2 i hmem).trans h1
    · omega
  · intro i hi h
    have h1 : Assoc.lookup i
        (CentroidTracker.update dets s.tracker).counted = none := by
      rcases U.2.2.2 i with h1 | h1 | h1
      · exact h1.trans h
      · exact h1
      · omega
    have hmem : ∀ e ∈ (CentroidTracker.update dets s.tracker).objects,
        e.1 ≠ i := by
      intro e he hei
      have : i ∈ Assoc.keys (CentroidTracker.update dets s.tracker).counted := by
        rw [U.1.keysCnt]
        exact hei ▸ List.mem_map_of_mem Prod.fst he
      rw [← Assoc.lookup_isSome_iff_mem_keys, h1] at this
      exact absurd this (by simp)
    exact (F.2.2.2 i hmem).trans h1

/-- Monotonicity of the counted flag across a whole directional run: once
true, the flag is true (or the identity is gone) after any further frames. -/
theorem runDirectionalFrames_counted_mono (opts : LineOptions)
    (algorithm : CountingAlgorithm) (minDisp : Int) (H W : ℕ) :
    ∀ (frames : List (List Point)) (s : DirectionalState) (i : Nat),
      s.tracker.WF → i < s.tracker.nextObjectID →
      (Assoc.lookup i s.tracker.counted = some true ∨
        Assoc.lookup i s.tracker.counted = none) →
      (Assoc.lookup i (runDirectionalFrames opts algorithm minDisp H W
          frames s).tracker.counted = some true ∨
       Assoc.lookup i (runDirectionalFrames opts algorithm minDisp H W
          frames s).tracker.counted = none)
  | [], _, _, _, _, h => h
  | dets :: frames, s, i, wf, hi, h => by
    have S := directionalFrameStep_facts opts algorithm minDisp H W dets wf
    have h' : Assoc.lookup i (directionalFrameStep opts algorithm minDisp H W
        dets s).tracker.counted = some true ∨
        Assoc.lookup i (directionalFrameStep opts algorithm minDisp H W
          dets s).tracker.counted = none := by
      rcases h with h | h
      · exact S.2.2.1 i h
      · exact Or.inr (S.2.2.2 i hi h)
    exact runDirectionalFrames_counted_mono opts algorithm minDisp H W frames
      (directionalFrameStep opts algorithm minDisp H W dets s) i S.1
      (lt_of_lt_of_le hi S.2.1) h'

/-- Monotonicity of the counted flag across a whole unique-mode run. -/
theorem runUniqueFrames_counted_mono :
    ∀ (frames : List (List Point)) (s : UniqueState) (i : Nat),
      s.tracker.WF → i < s.tracker.nextObjectID →
      (Assoc.lookup i s.tracker.counted = some true ∨
        Assoc.lookup i s.tracker.counted = none) →
      (Assoc.lookup i (runUniqueFrames frames s).tracker.counted =
          some true ∨
       Assoc.lookup i (runUniqueFrames frames s).tracker.counted = none)
  | [], _, _, _, _, h => h
  | dets :: frames, s, i, wf, hi, h => by
    have S := uniqueFrameStep_facts dets wf
    have h' : Assoc.lookup i (uniqueFrameStep dets s).tracker.counted =
        some true ∨
        Assoc.lookup i (uniqueFrameStep dets s).tracker.counted = none := by
      rcases h with h | h
      · exact S.2.2.1 i h
      · exact Or.inr (S.2.2.2 i hi h)
    exact runUniqueFrames_counted_mono frames (uniqueFrameStep dets s) i S.1
      (lt_of_lt_of_le hi S.2.1) h'

/-- C8: the counted flag is one-way in both modes.  An identity whose
flag is true keeps it true for the rest of its lifetime (or is
deregistered, and ids are never reused), after any further sequence of
frames; and an already counted identity generates no further event, since
the per-identity evaluation is guarded on the flag.  Hence the flag flips
false→true at most once and each identity contributes at most one counted
event, no matter how many crossings it makes. -/
theorem C8_counted_flag_one_way (opts : LineOptions)
    (algorithm : CountingAlgorithm) (minDisp : Int) (H W : ℕ)
    (frames : List (List Point)) (s : DirectionalState) (u : UniqueState)
    (i j : Nat) (wfs : s.tracker.WF) (wfu : u.tracker.WF)
    (hs : Assoc.lookup i s.tracker.counted = some true)
    (hu : Assoc.lookup j u.tracker.counted = some true) :
    (Assoc.lookup i (runDirectionalFrames opts algorithm minDisp H W
        frames s).tracker.counted = some true ∨
     Assoc.lookup i (runDirectionalFrames opts algorithm minDisp H W
        frames s).tracker.counted = none) ∧
    (Assoc.lookup j (runUniqueFrames frames u).tracker.counted = some true ∨
     Assoc.lookup j (runUniqueFrames frames u).tracker.counted = none) ∧
    (∀ orientation pt1 pt2 prev curr,
      evalIdentity orientation algorithm minDisp pt1 pt2 prev curr true =
        (none, true)) := by
  have hi : i < s.tracker.nextObjectID := by
    apply wfs.bounded
    rw [← wfs.keysCnt, ← Assoc.lookup_isSome_iff_mem_keys, hs]
    rfl
  have hj : j < u.tracker.nextObjectID := by
    apply wfu.bounded
    rw [← wfu.keysCnt, ← Assoc.lookup_isSome_iff_mem_keys, hu]
    rfl
  exact ⟨runDirectionalFrames_counted_mono opts algorithm minDisp H W frames
      s i wfs hi (Or.inl hs),
    runUniqueFrames_counted_mono frames u j wfu hj (Or.inl hu),
    fun _ _ _ _ _ => rfl⟩

/-- C8 witness: one already counted identity, two further frames in each
mode; the flag is still true (or the identity gone) afterwards. -/
theorem C8_counted_flag_one_way_witness :
    Assoc.lookup 0 (⟨⟨1, [(0, (5, 5))], [(0, 0)], [(0, (5, 5))],
        [(0, true)], 40⟩, 0, 0⟩ : DirectionalState).tracker.counted =
      some true ∧
    ((Assoc.lookup 0 (runDirectionalFrames ⟨.horizontal, 1/2, false⟩
        .standard 10 360 640 [[(6, 6)], []]
        ⟨⟨1, [(0, (5, 5))], [(0, 0)], [(0, (5, 5))], [(0, true)], 40⟩, 0, 0⟩).tracker.counted = some true ∨
      Assoc.lookup 0 (runDirectionalFrames ⟨.horizontal, 1/2, false⟩
        .standard 10 360 640 [[(6, 6)], []]
        ⟨⟨1, [(0, (5, 5))], [(0, 0)], [(0, (5, 5))], [(0, true)], 40⟩, 0, 0⟩).tracker.counted = none) ∧
     (Assoc.lookup 0 (runUniqueFrames [[(6, 6)], []]
        ⟨⟨1, [(0, (5, 5))], [(0, 0)], [(0, (5, 5))], [(0, true)], 40⟩, 1⟩).tracker.counted = some true ∨
      Assoc.lookup 0 (runUniqueFrames [[(6, 6)], []]
        ⟨⟨1, [(0, (5, 5))], [(0, 0)], [(0, (5, 5))], [(0, true)], 40⟩, 1⟩).tracker.counted = none) ∧
     (∀ orientation pt1 pt2 prev curr,
       evalIdentity orientation .standard 10 pt1 pt2 prev curr true =
         (none, true))) := by
  refine ⟨rfl, ?_⟩
  exact C8_counted_flag_one_way ⟨.horizontal, 1/2, false⟩ .standard 10 360 640
    [[(6, 6)], []]
    ⟨⟨1, [(0, (5, 5))], [(0, 0)], [(0, (5, 5))], [(0, true)], 40⟩, 0, 0⟩
    ⟨⟨1, [(0, (5, 5))], [(0, 0)], [(0, (5, 5))], [(0, true)], 40⟩, 1⟩
    0 0 ⟨rfl, rfl, rfl, by decide, by decide⟩
    ⟨rfl, rfl, rfl, by decide, by decide⟩ rfl rfl

/-- C10: after a register, deregister, or update call on a well-formed
tracker (well-formedness holds for every tracker reachable from
`__init__`, by `wf_init` and the preservation lemmas), the four dicts
hold exactly the same key list; in particular every identity in the
mapping `update` returns has a defined counted flag, previous centroid
and disappearance count. -/
theorem C10_key_sets_aligned (t : CentroidTracker) (c : Point) (j : Nat)
    (dets : List Point) (wf : t.WF) :
    (Assoc.keys (t.register c).disappeared =
        Assoc.keys (t.register c).objects ∧
     Assoc.keys (t.register c).previousCentroids =
        Assoc.keys (t.register c).objects ∧
     Assoc.keys (t.register c).counted = Assoc.keys (t.register c).objects) ∧
    (Assoc.keys (t.deregister j).disappeared =
        Assoc.keys (t.deregister j).objects ∧
     Assoc.keys (t.deregister j).previousCentroids =
        Assoc.keys (t.deregister j).objects ∧
     Assoc.keys (t.deregister j).counted =
        Assoc.keys (t.deregister j).objects) ∧
    (Assoc.keys (CentroidTracker.update dets t).disappeared =
        Assoc.keys (CentroidTracker.update dets t).objects ∧
     Assoc.keys (CentroidTracker.update dets t).previousCentroids =
        Assoc.keys (CentroidTracker.update dets t).objects ∧
     Assoc.keys (CentroidTracker.update dets t).counted =
        Assoc.keys (CentroidTracker.update dets t).objects) ∧
    (∀ i ∈ Assoc.keys (CentroidTracker.update dets t).objects,
      (Assoc.lookup i (CentroidTracker.update dets t).counted).isSome ∧
      (Assoc.lookup i (CentroidTracker.update dets t).previousCentroids).isSome ∧
      (Assoc.lookup i (CentroidTracker.update dets t).disappeared).isSome) := by
  have h1 := CentroidTracker.wf_register c wf
  have h2 := CentroidTracker.wf_deregister j wf
  have h3 := (CentroidTracker.update_facts wf dets).1
  refine ⟨⟨h1.keysDis, h1.keysPrev, h1.keysCnt⟩,
    ⟨h2.keysDis, h2.keysPrev, h2.keysCnt⟩,
    ⟨h3.keysDis, h3.keysPrev, h3.keysCnt⟩, ?_⟩
  intro i hi
  refine ⟨?_, ?_, ?_⟩
  · rw [Assoc.lookup_isSome_iff_mem_keys, h3.keysCnt]
    exact hi
  · rw [Assoc.lookup_isSome_iff_mem_keys, h3.keysPrev]
    exact hi
  · rw [Assoc.lookup_isSome_iff_mem_keys, h3.keysDis]
    exact hi

/-- C10 witness: a tracker with one live identity, one register, one
deregister and one mixed update. -/
theorem C10_key_sets_aligned_witness :
    (Assoc.keys (((CentroidTracker.init 40).register (5, 5)).register (7, 7)).disappeared =
      Assoc.keys (((CentroidTracker.init 40).register (5, 5)).register (7, 7)).objects ∧
     Assoc.keys (((CentroidTracker.init 40).register (5, 5)).register (7, 7)).previousCentroids =
      Assoc.keys (((CentroidTracker.init 40).register (5, 5)).register (7, 7)).objects ∧
     Assoc.keys (((CentroidTracker.init 40).register (5, 5)).register (7, 7)).counted =
      Assoc.keys (((CentroidTracker.init 40).register (5, 5)).register (7, 7)).objects) ∧
    (Assoc.keys (((CentroidTracker.init 40).register (5, 5)).deregister 0).disappeared =
      Assoc.keys (((CentroidTracker.init 40).register (5, 5)).deregister 0).objects ∧
     Assoc.keys (((CentroidTracker.init 40).register (5, 5)).deregister 0).previousCentroids =
      Assoc.keys (((CentroidTracker.init 40).register (5, 5)).deregister 0).objects ∧
     Assoc.keys (((CentroidTracker.init 40).register (5, 5)).deregister 0).counted =
      Assoc.keys (((CentroidTracker.init 40).register (5, 5)).deregister 0).objects) ∧
    (Assoc.keys (CentroidTracker.update [(5, 6), (90, 90)]
        ((CentroidTracker.init 40).register (5, 5))).disappeared =
      Assoc.keys (CentroidTracker.update [(5, 6), (90, 90)]
        ((CentroidTracker.init 40).register (5, 5))).objects ∧
     Assoc.keys (CentroidTracker.update [(5, 6), (90, 90)]
        ((CentroidTracker.init 40).register (5, 5))).previousCentroids =
      Assoc.keys (CentroidTracker.update [(5, 6), (90, 90)]
        ((CentroidTracker.init 40).register (5, 5))).objects ∧
     Assoc.keys (CentroidTracker.update [(5, 6), (90, 90)]
        ((CentroidTracker.init 40).register (5, 5))).counted =
      Assoc.keys (CentroidTracker.update [(5, 6), (90, 90)]
        ((CentroidTracker.init 40).register (5, 5))).objects) ∧
    (∀ i ∈ Assoc.keys (CentroidTracker.update [(5, 6), (90, 90)]
        ((CentroidTracker.init 40).register (5, 5))).objects,
      (Assoc.lookup i (CentroidTracker.update [(5, 6), (90, 90)]
        ((CentroidTracker.init 40).register (5, 5))).counted).isSome ∧
      (Assoc.lookup i (CentroidTracker.update [(5, 6), (90, 90)]
        ((CentroidTracker.init 40).register (5, 5))).previousCentroids).isSome ∧
      (Assoc.lookup i (CentroidTracker.update [(5, 6), (90, 90)]
        ((CentroidTracker.init 40).register (5, 5))).disappeared).isSome) :=
  C10_key_sets_aligned ((CentroidTracker.init 40).register (5, 5)) (7, 7) 0
    [(5, 6), (90, 90)] ⟨rfl, rfl, rfl, by decide, by decide⟩

/-- Membership in a unit-step `range'` block is exactly the interval
condition. -/
theorem mem_range'_iff (s n x : Nat) :
    x ∈ List.range' s n ↔ s ≤ x ∧ x < s + n := by
  rw [List.mem_range']
  constructor
  · rintro ⟨i, hi, rfl⟩
    omega
  · rintro ⟨h1, h2⟩
    exact ⟨x - s, by omega, by omega⟩

/-- A unit-step `range'` block is strictly increasing. -/
theorem chain'_lt_range' : ∀ (n s : Nat), List.Chain' (· < ·) (List.range' s n)
  | 0, _ => trivial
  | 1, s => by
    rw [List.range'_succ]
    exact List.chain'_singleton s
  | n + 2, s => by
    rw [List.range'_succ, List.range'_succ, List.chain'_cons]
    constructor
    · omega
    · rw [← List.range'_succ]
      exact chain'_lt_range' (n + 1) (s + 1)

/-- Two adjacent interval blocks concatenate into one. -/
theorem range'_sub_append {a b c : Nat} (h1 : a ≤ b) (h2 : b ≤ c) :
    List.range' a (b - a) ++ List.range' b (c - b) = List.range' a (c - a) := by
  have e : b = a + (b - a) := by omega
  rw [show List.range' b (c - b) = List.range' (a + (b - a)) (c - b) from by
    rw [← e]]
  rw [List.range'_append_1]
  congr 1
  omega

/-- The tracker's public operations, for whole-trace statements. -/
inductive TrackerOp
  | registerOp (c : Point)
  | deregisterOp (i : Nat)
  | updateOp (dets : List Point)

/-- Apply one public operation. -/
def applyOp (t : CentroidTracker) : TrackerOp → CentroidTracker
  | .registerOp c => t.register c
  | .deregisterOp i => t.deregister i
  | .updateOp dets => CentroidTracker.update dets t

/-- Identities assigned during one call: `register` hands out the current
counter (line 87), `deregister` assigns none, and the registrations inside
`update` hand out exactly the keys present after the call and absent
before it. -/
def assignedBy (t : CentroidTracker) : TrackerOp → List Nat
  | .registerOp _ => [t.nextObjectID]
  | .deregisterOp _ => []
  | .updateOp dets =>
      (Assoc.keys (CentroidTracker.update dets t).objects).filter
        (fun x => x ∉ Assoc.keys t.objects)

/-- Run a whole sequence of operations. -/
def runOps (t : CentroidTracker) : List TrackerOp → CentroidTracker
  | [] => t
  | op :: ops => runOps (applyOp t op) ops

/-- All identities assigned over a whole sequence, in assignment order. -/
def assignedIds (t : CentroidTracker) : List TrackerOp → List Nat
  | [] => []
  | op :: ops => assignedBy t op ++ assignedIds (applyOp t op) ops

namespace CentroidTracker

theorem wf_applyOp {t : CentroidTracker} (wf : t.WF) (op : TrackerOp) :
    (applyOp t op).WF ∧ t.nextObjectID ≤ (applyOp t op).nextObjectID := by
  cases op with
  | registerOp c =>
    exact ⟨wf_register c wf, by rw [applyOp, register_nextObjectID]; omega⟩
  | deregisterOp i =>
    exact ⟨wf_deregister i wf, le_of_eq (deregister_nextObjectID i t).symm⟩
  | updateOp dets =>
    exact ⟨(update_facts wf dets).1, (update_facts wf dets).2.1⟩

/-- The ids assigned by one call are exactly the consecutive block from
the old id counter up to the new one. -/
theorem assignedBy_eq_range' {t : CentroidTracker} (wf : t.WF)
    (op : TrackerOp) :
    assignedBy t op = List.range' t.nextObjectID
      ((applyOp t op).nextObjectID - t.nextObjectID) := by
  cases op with
  | registerOp c =>
    show [t.nextObjectID] = List.range' t.nextObjectID
      ((register c t).nextObjectID - t.nextObjectID)
    rw [register_nextObjectID]
    have : t.nextObjectID + 1 - t.nextObjectID = 1 := by omega
    rw [this, List.range'_succ]
    rfl
  | deregisterOp i =>
    show [] = List.range' t.nextObjectID
      ((deregister i t).nextObjectID - t.nextObjectID)
    rw [deregister_nextObjectID]
    have : t.nextObjectID - t.nextObjectID = 0 := by omega
    rw [this]
    rfl
  | updateOp dets =>
    show (Assoc.keys (update dets t).objects).filter
        (fun x => x ∉ Assoc.keys t.objects) = _
    obtain ⟨kept, hkept, hkeys⟩ := update_keys wf dets
    rw [hkeys, List.filter_append]
    have h1 : kept.filter (fun x => x ∉ Assoc.keys t.objects) = [] := by
      rw [List.filter_eq_nil]
      intro a ha
      simp only [decide_eq_true_eq, Decidable.not_not]
      exact hkept a ha
    have h2 : (List.range' t.nextObjectID
        ((update dets t).nextObjectID - t.nextObjectID)).filter
        (fun x => x ∉ Assoc.keys t.objects) =
        List.range' t.nextObjectID
          ((update dets t).nextObjectID - t.nextObjectID) := by
      rw [List.filter_eq_self]
      intro a ha
      simp only [decide_eq_true_eq]
      intro hmem
      have := wf.bounded a hmem
      have := (mem_range'_iff _ _ a).mp ha
      omega
    rw [h1, h2, List.nil_append]
    rfl

theorem wf_runOps :
    ∀ (ops : List TrackerOp) (t : CentroidTracker), t.WF →
      (runOps t ops).WF ∧ t.nextObjectID ≤ (runOps t ops).nextObjectID
  | [], _, wf => ⟨wf, le_rfl⟩
  | op :: ops, t, wf => by
    have h := wf_applyOp wf op
    have ih := wf_runOps ops (applyOp t op) h.1
    exact ⟨ih.1, le_trans h.2 ih.2⟩

/-- Over a whole run, the assigned ids are exactly the consecutive block
from the initial id counter up to the final one. -/
theorem assignedIds_eq_range' :
    ∀ (ops : List TrackerOp) (t : CentroidTracker), t.WF →
      assignedIds t ops = List.range' t.nextObjectID
        ((runOps t ops).nextObjectID - t.nextObjectID)
  | [], t, _ => by
    show ([] : List Nat) = List.range' t.nextObjectID
      (t.nextObjectID - t.nextObjectID)
    have : t.nextObjectID - t.nextObjectID = 0 := by omega
    rw [this]
    rfl
  | op :: ops, t, wf => by
    have h := wf_applyOp wf op
    have ih := assignedIds_eq_range' ops (applyOp t op) h.1
    have hrun := wf_runOps ops (applyOp t op) h.1
    show assignedBy t op ++ assignedIds (applyOp t op) ops =
      List.range' t.nextObjectID
        ((runOps (applyOp t op) ops).nextObjectID - t.nextObjectID)
    rw [assignedBy_eq_range' wf op, ih]
    exact range'_sub_append h.2 hrun.2

end CentroidTracker

/-- C9: over any sequence of register, deregister, and update calls on a
well-formed tracker, the assigned identities form a strictly increasing
list of non-negative integers; and any identity known by some intermediate
state — every live or previously deregistered id lies below that state's
id counter — is never assigned again by later calls, so a deregistered
identity is never reused. -/
theorem C9_identity_monotonicity (t : CentroidTracker)
    (ops ops1 ops2 : List TrackerOp) (i : Nat) (wf : t.WF)
    (hi : i < (runOps t ops1).nextObjectID) :
    List.Chain' (· < ·) (assignedIds t ops) ∧
    i ∉ assignedIds (runOps t ops1) ops2 := by
  constructor
  · rw [CentroidTracker.assignedIds_eq_range' ops t wf]
    exact chain'_lt_range' _ _
  · have hwf1 := (CentroidTracker.wf_runOps ops1 t wf).1
    rw [CentroidTracker.assignedIds_eq_range' ops2 (runOps t ops1) hwf1]
    intro hmem
    have := (mem_range'_iff _ _ i).mp hmem
    omega

/-- C9 witness: a register, a mixed update that matches one identity and
registers another, a deregistration of id 0, and an empty update; id 0 is
deregistered after the prefix and never assigned again. -/
theorem C9_identity_monotonicity_witness :
    0 < (runOps (CentroidTracker.init 40)
      [TrackerOp.registerOp (1, 1)]).nextObjectID ∧
    (List.Chain' (· < ·) (assignedIds (CentroidTracker.init 40)
      [TrackerOp.registerOp (1, 1), TrackerOp.updateOp [(2, 2), (50, 50)],
       TrackerOp.deregisterOp 0, TrackerOp.updateOp []]) ∧
     0 ∉ assignedIds (runOps (CentroidTracker.init 40)
        [TrackerOp.registerOp (1, 1)])
      [TrackerOp.updateOp [(2, 2), (50, 50)], TrackerOp.deregisterOp 0,
       TrackerOp.updateOp []]) := by
  refine ⟨by decide, ?_⟩
  exact C9_identity_monotonicity (CentroidTracker.init 40)
    [TrackerOp.registerOp (1, 1), TrackerOp.updateOp [(2, 2), (50, 50)],
     TrackerOp.deregisterOp 0, TrackerOp.updateOp []]
    [TrackerOp.registerOp (1, 1)]
    [TrackerOp.updateOp [(2, 2), (50, 50)], TrackerOp.deregisterOp 0,
     TrackerOp.updateOp []]
    0 ⟨rfl, rfl, rfl, by decide, by decide⟩ (by decide)

/-- Greedy pairing exactly as the specification words it: walk the rows in
the given (distance-sorted) order; each row picks its nearest detection
column, and the pairing is skipped when that column was already consumed
by an earlier — closer — pairing.  A row occurs at most once in the
order, so a row can never be re-consumed and only columns are tracked. -/
def greedyPairs (nearest : Nat → Nat) :
    List Nat → List Nat → List (Nat × Nat)
  | [], _ => []
  | r :: rs, usedCols =>
      if nearest r ∈ usedCols then greedyPairs nearest rs usedCols
      else (r, nearest r) :: greedyPairs nearest rs (nearest r :: usedCols)

theorem greedyPairs_nil (nearest : Nat → Nat) (usedCols : List Nat) :
    greedyPairs nearest [] usedCols = [] := rfl

theorem greedyPairs_cons (nearest : Nat → Nat) (r : Nat) (rs usedCols : List Nat) :
    greedyPairs nearest (r :: rs) usedCols =
      if nearest r ∈ usedCols then greedyPairs nearest rs usedCols
      else (r, nearest r) :: greedyPairs nearest rs (nearest r :: usedCols) :=
  rfl

/-- The matched rows are a sublist of the walked row order. -/
theorem greedyPairs_fst_sublist (nearest : Nat → Nat) :
    ∀ (rows usedCols : List Nat),
      List.Sublist ((greedyPairs nearest rows usedCols).map Prod.fst) rows
  | [], _ => List.Sublist.refl []
  | r :: rs, usedCols => by
    rw [greedyPairs_cons]
    by_cases hc : nearest r ∈ usedCols
    · rw [if_pos hc]
      exact (greedyPairs_fst_sublist nearest rs usedCols).cons r
    · rw [if_neg hc]
      exact (greedyPairs_fst_sublist nearest rs (nearest r :: usedCols)).cons₂ r

/-- The matching branch exactly as the claim describes it: compute the
greedy pairs over the distance-sorted row order, apply every match in
order, then age the unmatched rows and register the unmatched
detections. -/
def specMatchedUpdate (inputCentroids : List Point) (t : CentroidTracker) :
    CentroidTracker :=
  let objectIDs := Assoc.keys t.objects
  let n := objectIDs.length
  let m := inputCentroids.length
  let D := CentroidTracker.distMatrix (t.objects.map Prod.snd) inputCentroids
  let rowOrder := CentroidTracker.argsortBy
    (fun r => CentroidTracker.minVal (D r) m) n
  let pairs := greedyPairs (fun r => CentroidTracker.argminIdx (D r) m)
    rowOrder []
  let t1 := pairs.foldl (CentroidTracker.matchOne inputCentroids objectIDs) t
  let t2 := ((List.range n).filter (fun r => r ∉ pairs.map Prod.fst)).foldl
    (fun s r => CentroidTracker.ageOne s (objectIDs.getD r 0)) t1
  ((List.range m).filter (fun c => c ∉ pairs.map Prod.snd)).foldl
    (fun s c => CentroidTracker.register (inputCentroids.getD c (0, 0)) s) t2

namespace CentroidTracker

theorem lookup_matchOne_objects_ne {cs : List Point} {ids : List Nat}
    {t : CentroidTracker} {rc : Nat × Nat} {i : Nat}
    (h : ids.getD rc.1 0 ≠ i) :
    Assoc.lookup i (matchOne cs ids t rc).objects =
      Assoc.lookup i t.objects :=
  Assoc.lookup_set_ne h _ _

theorem lookup_matchOne_previous_ne {cs : List Point} {ids : List Nat}
    {t : CentroidTracker} {rc : Nat × Nat} {i : Nat}
    (h : ids.getD rc.1 0 ≠ i) :
    Assoc.lookup i (matchOne cs ids t rc).previousCentroids =
      Assoc.lookup i t.previousCentroids :=
  Assoc.lookup_set_ne h _ _

theorem lookup_matchOne_disappeared_ne {cs : List Point} {ids : List Nat}
    {t : CentroidTracker} {rc : Nat × Nat} {i : Nat}
    (h : ids.getD rc.1 0 ≠ i) :
    Assoc.lookup i (matchOne cs ids t rc).disappeared =
      Assoc.lookup i t.disappeared :=
  Assoc.lookup_set_ne h _ _

/-- A fold of matches over pairs whose rows all name identities other than
`i` leaves `i`'s state untouched. -/
theorem foldl_matchOne_lookup_ne (cs : List Point) (ids : List Nat) :
    ∀ (pairs : List (Nat × Nat)) (st : CentroidTracker) (i : Nat),
      (∀ q ∈ pairs, ids.getD q.1 0 ≠ i) →
      Assoc.lookup i ((pairs.foldl (matchOne cs ids) st)).objects =
        Assoc.lookup i st.objects ∧
      Assoc.lookup i ((pairs.foldl (matchOne cs ids) st)).previousCentroids =
        Assoc.lookup i st.previousCentroids ∧
      Assoc.lookup i ((pairs.foldl (matchOne cs ids) st)).disappeared =
        Assoc.lookup i st.disappeared
  | [], _, _, _ => ⟨rfl, rfl, rfl⟩
  | q :: pairs, st, i, h => by
    rw [List.foldl_cons]
    have hq := h q (List.mem_cons_self q pairs)
    have ih := foldl_matchOne_lookup_ne cs ids pairs (matchOne cs ids st q) i
      (fun x hx => h x (List.mem_cons_of_mem q hx))
    exact ⟨ih.1.trans (lookup_matchOne_objects_ne hq),
      ih.2.1.trans (lookup_matchOne_previous_ne hq),
      ih.2.2.trans (lookup_matchOne_disappeared_ne hq)⟩

/-- Effect of a fold of matches on each matched identity, when the matched
identities are pairwise distinct: the previous centroid becomes the
pre-fold current centroid, the current centroid becomes the matched
detection, the disappearance count becomes 0. -/
theorem foldl_matchOne_self (cs : List Point) (ids : List Nat) :
    ∀ (pairs : List (Nat × Nat)) (st : CentroidTracker) (rc : Nat × Nat),
      rc ∈ pairs →
      List.Pairwise (fun a b => ids.getD a.1 0 ≠ ids.getD b.1 0) pairs →
      Assoc.lookup (ids.getD rc.1 0)
          ((pairs.foldl (matchOne cs ids) st)).previousCentroids =
        some ((Assoc.lookup (ids.getD rc.1 0) st.objects).getD (0, 0)) ∧
      Assoc.lookup (ids.getD rc.1 0)
          ((pairs.foldl (matchOne cs ids) st)).objects =
        some (cs.getD rc.2 (0, 0)) ∧
      Assoc.lookup (ids.getD rc.1 0)
          ((pairs.foldl (matchOne cs ids) st)).disappeared = some 0
  | [], _, _, hmem, _ => absurd hmem (List.not_mem_nil _)
  | q :: pairs, st, rc, hmem, hpw => by
    rw [List.foldl_cons]
    have hpw' := List.pairwise_cons.mp hpw
    rcases List.mem_cons.mp hmem with rfl | hmem'
    · have hne : ∀ x ∈ pairs, ids.getD x.1 0 ≠ ids.getD rc.1 0 :=
        fun x hx => (hpw'.1 x hx).symm
      have hstable := foldl_matchOne_lookup_ne cs ids pairs
        (matchOne cs ids st rc) (ids.getD rc.1 0) hne
      refine ⟨hstable.2.1.trans ?_, hstable.1.trans ?_, hstable.2.2.trans ?_⟩
      · exact Assoc.lookup_set_self _ _ _
      · exact Assoc.lookup_set_self _ _ _
      · exact Assoc.lookup_set_self _ _ _
    · have hne : ids.getD q.1 0 ≠ ids.getD rc.1 0 := hpw'.1 rc hmem'
      have ih := foldl_matchOne_self cs ids pairs (matchOne cs ids st q) rc
        hmem' hpw'.2
      refine ⟨ih.1.trans ?_, ih.2.1, ih.2.2⟩
      rw [lookup_matchOne_objects_ne hne]

end CentroidTracker

namespace CentroidTracker

/-- The source's matching fold — pairs `zip rows (rows.map nearest)`
walked with used-row and used-column sets — computes exactly the greedy
pair list of the specification applied in order: the used-row check never
fires because the sorted row order has no duplicates, and the final used
sets hold exactly the matched rows and columns. -/
theorem matchFold_eq_greedy (cs : List Point) (ids : List Nat)
    (nearest : Nat → Nat) :
    ∀ (rows : List Nat) (st : CentroidTracker) (usedR usedC : List Nat),
      rows.Nodup → (∀ r ∈ rows, r ∉ usedR) →
      ((rows.zip (rows.map nearest)).foldl (matchStep cs ids)
          (st, usedR, usedC)).1 =
        (greedyPairs nearest rows usedC).foldl (matchOne cs ids) st ∧
      (∀ x, x ∈ ((rows.zip (rows.map nearest)).foldl (matchStep cs ids)
            (st, usedR, usedC)).2.1 ↔
        x ∈ (greedyPairs nearest rows usedC).map Prod.fst ∨ x ∈ usedR) ∧
      (∀ x, x ∈ ((rows.zip (rows.map nearest)).foldl (matchStep cs ids)
            (st, usedR, usedC)).2.2 ↔
        x ∈ (greedyPairs nearest rows usedC).map Prod.snd ∨ x ∈ usedC)
  | [], st, usedR, usedC, _, _ => by
    refine ⟨rfl, fun x => ?_, fun x => ?_⟩
    · rw [greedyPairs_nil]
      simp
    · rw [greedyPairs_nil]
      simp
  | r :: rs, st, usedR, usedC, hnd, hdisj => by
    have hnd' := List.nodup_cons.mp hnd
    have hrR : r ∉ usedR := hdisj r (List.mem_cons_self r rs)
    rw [List.map_cons, List.zip_cons_cons, List.foldl_cons, greedyPairs_cons]
    by_cases hc : nearest r ∈ usedC
    · rw [if_pos hc]
      rw [show matchStep cs ids (st, usedR, usedC) (r, nearest r) =
          (st, usedR, usedC) from if_pos (Or.inr hc)]
      exact matchFold_eq_greedy cs ids nearest rs st usedR usedC hnd'.2
        (fun x hx => hdisj x (List.mem_cons_of_mem r hx))
    · rw [if_neg hc]
      have hcond : ¬ ((r, nearest r).1 ∈ usedR ∨ (r, nearest r).2 ∈ usedC) := by
        rintro (h | h)
        · exact hrR h
        · exact hc h
      rw [show matchStep cs ids (st, usedR, usedC) (r, nearest r) =
          (matchOne cs ids st (r, nearest r), r :: usedR,
            nearest r :: usedC) from if_neg hcond]
      have ih := matchFold_eq_greedy cs ids nearest rs
        (matchOne cs ids st (r, nearest r)) (r :: usedR)
        (nearest r :: usedC) hnd'.2
        (fun x hx hmem => by
          rcases List.mem_cons.mp hmem with rfl | hmem'
          · exact hnd'.1 hx
          · exact hdisj x (List.mem_cons_of_mem r hx) hmem')
      refine ⟨ih.1.trans (by rw [List.foldl_cons]), fun x => ?_, fun x => ?_⟩
      · rw [ih.2.1 x, List.map_cons, List.mem_cons, List.mem_cons]
        tauto
      · rw [ih.2.2 x, List.map_cons, List.mem_cons, List.mem_cons]
        tauto

end CentroidTracker

namespace CentroidTracker

/-- The matching branch of the source equals the specification's
greedy-pair description of it. -/
theorem updateMatched_eq_spec {t : CentroidTracker} (wf : t.WF)
    (dets : List Point) : updateMatched dets t = specMatchedUpdate dets t := by
  unfold updateMatched specMatchedUpdate
  simp only []
  set objectIDs := Assoc.keys t.objects with hids
  set n := objectIDs.length
  set m := dets.length
  set D := distMatrix (t.objects.map Prod.snd) dets
  set rows := argsortBy (fun r => minVal (D r) m) n with hrows
  set nearest := fun r => argminIdx (D r) m with hnear
  have hndrows : rows.Nodup := by
    rw [hrows]
    exact ((List.perm_insertionSort _ _).nodup_iff).mpr (List.nodup_range n)
  have E := matchFold_eq_greedy dets objectIDs nearest rows t [] []
    hndrows (fun r _ => List.not_mem_nil r)
  have hfR : (List.range n).filter
      (fun r => r ∉ ((rows.zip (rows.map nearest)).foldl
        (matchStep dets objectIDs) (t, ([], []))).2.1) =
      (List.range n).filter
        (fun r => r ∉ (greedyPairs nearest rows []).map Prod.fst) := by
    apply List.filter_congr
    intro x _
    have h := E.2.1 x
    simp only [List.not_mem_nil, or_false] at h
    exact decide_eq_decide.mpr (not_congr h)
  have hfC : (List.range m).filter
      (fun c => c ∉ ((rows.zip (rows.map nearest)).foldl
        (matchStep dets objectIDs) (t, ([], []))).2.2) =
      (List.range m).filter
        (fun c => c ∉ (greedyPairs nearest rows []).map Prod.snd) := by
    apply List.filter_congr
    intro x _
    have h := E.2.2 x
    simp only [List.not_mem_nil, or_false] at h
    exact decide_eq_decide.mpr (not_congr h)
  rw [hfR, hfC, E.1]

end CentroidTracker

namespace CentroidTracker

/-- Effect of the matching branch on every greedily matched pair: the
previous centroid becomes the identity's pre-update current centroid, the
current centroid becomes the matched detection, and the disappearance
count resets to 0. -/
theorem updateMatched_pair_effects {t : CentroidTracker} (wf : t.WF)
    (dets : List Point) :
    ∀ rc ∈ greedyPairs
        (fun r => argminIdx
          (distMatrix (t.objects.map Prod.snd) dets r) dets.length)
        (argsortBy (fun r => minVal
          (distMatrix (t.objects.map Prod.snd) dets r) dets.length)
          (Assoc.keys t.objects).length) [],
      Assoc.lookup ((Assoc.keys t.objects).getD rc.1 0)
          (updateMatched dets t).previousCentroids =
        some ((Assoc.lookup ((Assoc.keys t.objects).getD rc.1 0)
          t.objects).getD (0, 0)) ∧
      Assoc.lookup ((Assoc.keys t.objects).getD rc.1 0)
          (updateMatched dets t).objects = some (dets.getD rc.2 (0, 0)) ∧
      Assoc.lookup ((Assoc.keys t.objects).getD rc.1 0)
          (updateMatched dets t).disappeared = some 0 := by
  unfold updateMatched
  simp only []
  set objectIDs := Assoc.keys t.objects with hids
  set n := objectIDs.length
  set m := dets.length
  set D := distMatrix (t.objects.map Prod.snd) dets
  set rows := argsortBy (fun r => minVal (D r) m) n with hrows
  set nearest := fun r => argminIdx (D r) m with hnear
  set pairs := greedyPairs nearest rows [] with hpairs
  set folded := (rows.zip (rows.map nearest)).foldl
    (matchStep dets objectIDs) (t, ([], [])) with hfolded
  have hperm : rows.Perm (List.range n) := by
    rw [hrows]
    exact List.perm_insertionSort _ _
  have hndrows : rows.Nodup := hperm.nodup_iff.mpr (List.nodup_range n)
  have E := matchFold_eq_greedy dets objectIDs nearest rows t [] []
    hndrows (fun r _ => List.not_mem_nil r)
  rw [← hfolded] at E
  have hrowmem : ∀ rc ∈ rows.zip (rows.map nearest),
      rc.1 < objectIDs.length := by
    intro rc hrc
    have h1 : rc.1 ∈ rows := (List.of_mem_zip hrc).1
    exact List.mem_range.mp (hperm.subset h1)
  have A := matchFold_facts dets objectIDs (rows.zip (rows.map nearest))
    (t, ([], [])) wf rfl hrowmem
  rw [← hfolded] at A
  intro rc hrc
  have hrc1 : rc.1 ∈ rows :=
    (greedyPairs_fst_sublist nearest rows []).subset
      (List.mem_map_of_mem Prod.fst hrc)
  have hrc1n : rc.1 < n := List.mem_range.mp (hperm.subset hrc1)
  have hidmem : objectIDs.getD rc.1 0 ∈ objectIDs := getD_mem_of_lt hrc1n 0
  have hidlt : objectIDs.getD rc.1 0 < t.nextObjectID := wf.bounded _ hidmem
  have hfstlt : ∀ x ∈ pairs, x.1 < n := by
    intro x hx
    have : x.1 ∈ rows := (greedyPairs_fst_sublist nearest rows []).subset
      (List.mem_map_of_mem Prod.fst hx)
    exact List.mem_range.mp (hperm.subset this)
  have hfstnodup : (pairs.map Prod.fst).Nodup :=
    (greedyPairs_fst_sublist nearest rows []).nodup hndrows
  have hpw : List.Pairwise
      (fun a b : Nat × Nat =>
        objectIDs.getD a.1 0 ≠ objectIDs.getD b.1 0) pairs := by
    have h1 : List.Pairwise (fun a b : Nat × Nat => a.1 ≠ b.1) pairs :=
      List.pairwise_map.mp hfstnodup
    refine h1.imp_of_mem ?_
    intro a b ha hb hne he
    apply hne
    rw [getD_eq_getElem (hfstlt a ha), getD_eq_getElem (hfstlt b hb)] at he
    have hnd : objectIDs.Nodup := by
      rw [hids]
      exact wf.nodup
    exact hnd.getElem_inj_iff.mp he
  have F := foldl_matchOne_self dets objectIDs pairs t rc hrc hpw
  rw [← E.1] at F
  set unusedRows := (List.range n).filter (fun r => r ∉ folded.2.1)
    with hunused
  set agedIDs := unusedRows.map (fun r => objectIDs.getD r 0) with haged
  have hagefold : unusedRows.foldl
      (fun s r => ageOne s (objectIDs.getD r 0)) folded.1 =
      agedIDs.foldl ageOne folded.1 := by
    rw [haged, List.foldl_map]
  set t2 := unusedRows.foldl (fun s r => ageOne s (objectIDs.getD r 0))
    folded.1 with ht2
  have hurlt : ∀ r ∈ unusedRows, r < n := by
    intro r hr
    exact List.mem_range.mp (List.mem_of_mem_filter hr)
  have hnotaged : objectIDs.getD rc.1 0 ∉ agedIDs := by
    rw [haged]
    intro hmem
    rcases List.mem_map.mp hmem with ⟨r, hr, he⟩
    have hrn := hurlt r hr
    have hre : r = rc.1 := by
      rw [getD_eq_getElem hrn, getD_eq_getElem hrc1n] at he
      have hnd : objectIDs.Nodup := by
        rw [hids]
        exact wf.nodup
      exact hnd.getElem_inj_iff.mp he
    have hrf := List.of_mem_filter hr
    rw [hre] at hrf
    simp only [decide_eq_true_eq] at hrf
    apply hrf
    rw [E.2.1 rc.1]
    exact Or.inl (List.mem_map_of_mem Prod.fst hrc)
  have hstable2 := foldl_ageOne_lookup_of_not_mem agedIDs folded.1 hnotaged
  have hagednodup : agedIDs.Nodup := by
    rw [haged]
    refine List.Nodup.map_on ?_ (List.Nodup.filter _ (List.nodup_range n))
    intro x hx y hy hxy
    have hxn := hurlt x hx
    have hyn := hurlt y hy
    rw [getD_eq_getElem hxn, getD_eq_getElem hyn] at hxy
    have hnd : objectIDs.Nodup := by
      rw [hids]
      exact wf.nodup
    exact hnd.getElem_inj_iff.mp hxy
  have hagedmem : ∀ x ∈ agedIDs, x ∈ Assoc.keys folded.1.objects := by
    intro x hx
    rw [A.2.1]
    rw [haged] at hx
    rcases List.mem_map.mp hx with ⟨r, hr, rfl⟩
    exact getD_mem_of_lt (hurlt r hr) 0
  have B := wf_foldl_ageOne agedIDs hagednodup folded.1 A.1 hagedmem
  rw [← hagefold] at B
  have ht2next : t2.nextObjectID = t.nextObjectID := B.2.1.trans A.2.2.1
  set unusedCols := (List.range m).filter (fun c => c ∉ folded.2.2)
    with hcolsu
  set newCents := unusedCols.map (fun c => dets.getD c (0, 0)) with hnew
  have hregfold : unusedCols.foldl
      (fun s c => register (dets.getD c (0, 0)) s) t2 =
      newCents.foldl (fun s c => register c s) t2 := by
    rw [hnew, List.foldl_map]
  have C := foldl_register_facts newCents t2 B.1
  rw [← hregfold] at C
  have hreg := C.2.2.2.2 (objectIDs.getD rc.1 0) (by rw [ht2next]; exact hidlt)
  have hstab : Assoc.lookup (objectIDs.getD rc.1 0) t2.objects =
      Assoc.lookup (objectIDs.getD rc.1 0) folded.1.objects ∧
      Assoc.lookup (objectIDs.getD rc.1 0) t2.disappeared =
        Assoc.lookup (objectIDs.getD rc.1 0) folded.1.disappeared ∧
      Assoc.lookup (objectIDs.getD rc.1 0) t2.counted =
        Assoc.lookup (objectIDs.getD rc.1 0) folded.1.counted ∧
      Assoc.lookup (objectIDs.getD rc.1 0) t2.previousCentroids =
        Assoc.lookup (objectIDs.getD rc.1 0) folded.1.previousCentroids := by
    rw [hagefold]
    exact foldl_ageOne_lookup_of_not_mem agedIDs folded.1 hnotaged
  refine ⟨?_, ?_, ?_⟩
  · rw [hreg.2.2.1, hstab.2.2.2, F.1]
  · rw [hreg.1, hstab.1, F.2.1]
  · rw [hreg.2.1, hstab.2.1, F.2.2]

end CentroidTracker

namespace CentroidTracker

theorem update_eq_updateMatched {t : CentroidTracker} (dets : List Point)
    (h1 : dets ≠ []) (h2 : t.objects ≠ []) :
    update dets t = updateMatched dets t := by
  have e1 : dets.isEmpty = false := by
    cases dets with
    | nil => exact absurd rfl h1
    | cons a l => rfl
  have e2 : t.objects.isEmpty = false := by
    cases h : t.objects with
    | nil => exact absurd h h2
    | cons a l => rfl
  unfold update
  rw [e1, e2]
  simp

end CentroidTracker

/-- C2: with live identities and a nonempty detection list, `update` is
exactly the specification's greedy matching: the walked row order is a
permutation of all identity rows sorted ascending by minimum distance to
any detection; each row in that order is paired with its nearest column
unless an earlier (closer) pairing consumed it; the whole call equals the
pair-list description `specMatchedUpdate` (which ages unmatched rows and
registers unmatched detections as new identities); and each matched
identity ends with previousCentroid = its pre-update currentCentroid,
currentCentroid = the matched detection, and disappearedFrames = 0. -/
theorem C2_greedy_matching (t : CentroidTracker) (dets : List Point)
    (wf : t.WF) (hdets : dets ≠ []) (hobj : t.objects ≠ []) :
    CentroidTracker.update dets t = specMatchedUpdate dets t ∧
    (CentroidTracker.argsortBy (fun r => CentroidTracker.minVal
        (CentroidTracker.distMatrix (t.objects.map Prod.snd) dets r)
        dets.length) (Assoc.keys t.objects).length).Perm
      (List.range (Assoc.keys t.objects).length) ∧
    List.Sorted (· ≤ ·)
      ((CentroidTracker.argsortBy (fun r => CentroidTracker.minVal
          (CentroidTracker.distMatrix (t.objects.map Prod.snd) dets r)
          dets.length) (Assoc.keys t.objects).length).map
        (fun r => CentroidTracker.minVal
          (CentroidTracker.distMatrix (t.objects.map Prod.snd) dets r)
          dets.length)) ∧
    (∀ rc ∈ greedyPairs (fun r => CentroidTracker.argminIdx
          (CentroidTracker.distMatrix (t.objects.map Prod.snd) dets r)
          dets.length)
        (CentroidTracker.argsortBy (fun r => CentroidTracker.minVal
          (CentroidTracker.distMatrix (t.objects.map Prod.snd) dets r)
          dets.length) (Assoc.keys t.objects).length) [],
      Assoc.lookup ((Assoc.keys t.objects).getD rc.1 0)
          (CentroidTracker.update dets t).previousCentroids =
        some ((Assoc.lookup ((Assoc.keys t.objects).getD rc.1 0)
          t.objects).getD (0, 0)) ∧
      Assoc.lookup ((Assoc.keys t.objects).getD rc.1 0)
          (CentroidTracker.update dets t).objects =
        some (dets.getD rc.2 (0, 0)) ∧
      Assoc.lookup ((Assoc.keys t.objects).getD rc.1 0)
          (CentroidTracker.update dets t).disappeared = some 0) := by
  have heq := CentroidTracker.update_eq_updateMatched dets hdets hobj
  refine ⟨heq.trans (CentroidTracker.updateMatched_eq_spec wf dets),
    List.perm_insertionSort _ _, ?_, ?_⟩
  · haveI : IsTotal Nat (fun a b => CentroidTracker.minVal
        (CentroidTracker.distMatrix (t.objects.map Prod.snd) dets a)
        dets.length ≤ CentroidTracker.minVal
        (CentroidTracker.distMatrix (t.objects.map Prod.snd) dets b)
        dets.length) := ⟨fun _ _ => le_total _ _⟩
    haveI : IsTrans Nat (fun a b => CentroidTracker.minVal
        (CentroidTracker.distMatrix (t.objects.map Prod.snd) dets a)
        dets.length ≤ CentroidTracker.minVal
        (CentroidTracker.distMatrix (t.objects.map Prod.snd) dets b)
        dets.length) := ⟨fun _ _ _ h1 h2 => le_trans h1 h2⟩
    have hs := List.sorted_insertionSort (fun a b => CentroidTracker.minVal
        (CentroidTracker.distMatrix (t.objects.map Prod.snd) dets a)
        dets.length ≤ CentroidTracker.minVal
        (CentroidTracker.distMatrix (t.objects.map Prod.snd) dets b)
        dets.length)
      (List.range (Assoc.keys t.objects).length)
    exact List.pairwise_map.mpr hs
  · intro rc hrc
    rw [heq]
    exact CentroidTracker.updateMatched_pair_effects wf dets rc hrc

theorem C2_greedy_matching_witness :
    (CentroidTracker.register (100, 100) (CentroidTracker.register (0, 0)
      (CentroidTracker.init 40))).WF ∧
    ([((2 : Int), (2 : Int)), (90, 95)] : List Point) ≠ [] ∧
    (CentroidTracker.register (100, 100) (CentroidTracker.register (0, 0)
      (CentroidTracker.init 40))).objects ≠ [] ∧
    CentroidTracker.update [((2 : Int), (2 : Int)), (90, 95)]
        (CentroidTracker.register (100, 100) (CentroidTracker.register (0, 0)
          (CentroidTracker.init 40))) =
      specMatchedUpdate [((2 : Int), (2 : Int)), (90, 95)]
        (CentroidTracker.register (100, 100) (CentroidTracker.register (0, 0)
          (CentroidTracker.init 40))) :=
  ⟨⟨rfl, rfl, rfl, by decide, by decide⟩, by decide, by decide,
    (C2_greedy_matching
      (CentroidTracker.register (100, 100) (CentroidTracker.register (0, 0)
        (CentroidTracker.init 40)))
      [((2 : Int), (2 : Int)), (90, 95)]
      ⟨rfl, rfl, rfl, by decide, by decide⟩ (by decide) (by decide)).1⟩
